import Mathlib

/-!
# GamingAnywhere: the dpipe frame pipeline (core/src/dpipe.cpp), the audio
buffer (core/src/asource.cpp) and the watchdog (client/src/main.cpp)

A shallow embedding of the discrete-frame pipe, of the audio source buffer and
of the watchdog loop of the client.  A `dpipe_buffer_t *` is an
`Option Nat` (`none` is `NULL`, `some a` is the buffer object at address `a`);
the `next` field of every buffer object is kept in the map `next`, so the
free list (`in`) and the ready list (`out`, `out_tail`) are genuine
pointer-linked chains, exactly as in the source.  The mutex only serialises
the calls; each call is therefore a function from state to state.
-/

namespace GamingAnywhere

/-- The `struct timespec` passed to `dpipe_load`. -/
structure timespec where
  tv_sec : Int
  tv_nsec : Int
deriving DecidableEq, Repr

/-- The fields of `dpipe_t` that the pipe operations read or write, together
with `next`, the `next` field of every `dpipe_buffer_t` object (indexed by the
address of the buffer).  The field `in` of the source is called `in_` here,
`in` being reserved.  The counters are C `int`s; they are modelled as `Int`
(in every state reachable from `dpipe_create` they lie between `0` and
`nframe`, so no wrap-around is involved). -/
structure dpipe_t where
  channel_id : Int
  name : Option String
  in_ : Option Nat
  out : Option Nat
  out_tail : Option Nat
  in_count : Int
  out_count : Int
  next : Nat → Option Nat

/-- Source `dpipe_get` (dpipe.cpp:155-180): returns `vbuf` and the new state. -/
def dpipe_get (dpipe : dpipe_t) : Option Nat × dpipe_t :=
  match dpipe.in_ with
  | some vbuf =>
    -- quick path: has available frame buffers
    (some vbuf,
      { dpipe with
        in_ := dpipe.next vbuf
        next := Function.update dpipe.next vbuf none
        in_count := dpipe.in_count - 1 })
  | none =>
    -- no available buffers: drop the eldest frame buffer from output pool
    match dpipe.out with
    | some vbuf =>
      (some vbuf,
        { dpipe with
          out := dpipe.next vbuf
          next := Function.update dpipe.next vbuf none
          out_tail := if dpipe.next vbuf = none then none else dpipe.out_tail
          out_count := dpipe.out_count - 1 })
    | none => (none, dpipe)

/-- Source `dpipe_put` (dpipe.cpp:188-194).  The buffer pointer is
dereferenced unconditionally, so it is a non-null address. -/
def dpipe_put (dpipe : dpipe_t) (buffer : Nat) : dpipe_t :=
  { dpipe with
    next := Function.update dpipe.next buffer dpipe.in_
    in_ := some buffer
    in_count := dpipe.in_count + 1 }

/-- Source `dpipe_load_nowait` (dpipe.cpp:246-260). -/
def dpipe_load_nowait (dpipe : dpipe_t) : Option Nat × dpipe_t :=
  match dpipe.out with
  | some vbuf =>
    (some vbuf,
      { dpipe with
        out := dpipe.next vbuf
        next := Function.update dpipe.next vbuf none
        out_tail := if dpipe.next vbuf = none then none else dpipe.out_tail
        out_count := dpipe.out_count - 1 })
  | none => (none, dpipe)

/-- Source `dpipe_store` (dpipe.cpp:269-284): the three pointer writes in the
order of the source, then the counter. -/
def dpipe_store (dpipe : dpipe_t) (buffer : Nat) : dpipe_t :=
  let d1 : dpipe_t :=
    match dpipe.out_tail with
    | some t =>
      { dpipe with
        next := Function.update dpipe.next t (some buffer)
        out_tail := some buffer }
    | none => { dpipe with out := some buffer, out_tail := some buffer }
  { d1 with
    next := Function.update d1.next buffer none
    out_count := d1.out_count + 1 }

/-- The chain of buffers starting at pointer `p` and ending at `NULL` is
exactly the list `l` (following the `next` fields). -/
def isList (next : Nat → Option Nat) : Option Nat → List Nat → Prop
  | p, [] => p = none
  | p, a :: l => p = some a ∧ isList next (next a) l

instance isList.instDecidable (next : Nat → Option Nat) :
    (p : Option Nat) → (l : List Nat) → Decidable (isList next p l)
  | p, [] => inferInstanceAs (Decidable (p = none))
  | p, a :: l =>
    @instDecidableAnd (p = some a) (isList next (next a) l) _
      (isList.instDecidable next (next a) l)

/-- A well-formed pipe whose free list is `F` and whose ready list is `R`:
both chains end at `NULL`, no buffer is on both, and `out_tail` points at the
last ready buffer (`NULL` when there is none). -/
def WF (d : dpipe_t) (F R : List Nat) : Prop :=
  isList d.next d.in_ F ∧ isList d.next d.out R ∧
    d.out_tail = R.getLast? ∧ (F ++ R).Nodup

instance WF.instDecidable (d : dpipe_t) (F R : List Nat) : Decidable (WF d F R) :=
  inferInstanceAs (Decidable (isList d.next d.in_ F ∧ isList d.next d.out R ∧
    d.out_tail = R.getLast? ∧ (F ++ R).Nodup))

/-- An example pipe of three entries: entry 1 is free, entries 2 and 3 are
ready (2 is the older one). -/
def pipe_1_23 : dpipe_t :=
  { channel_id := 0, name := some "video-0", in_ := some 1, out := some 2,
    out_tail := some 3, in_count := 1, out_count := 2,
    next := fun a => if a = 2 then some 3 else none }

/-- An example pipe of two entries, both ready (2 is the older one), none
free. -/
def pipe_0_23 : dpipe_t :=
  { channel_id := 0, name := some "video-0", in_ := none, out := some 2,
    out_tail := some 3, in_count := 0, out_count := 2,
    next := fun a => if a = 2 then some 3 else none }

/-- The body of the lock-protected removal shared by `dpipe_load` and
`dpipe_load_nowait` when `dpipe->out` is the non-null buffer `vbuf`
(dpipe.cpp:216-221 and 252-257). -/
def dpipe_take_out (dpipe : dpipe_t) (vbuf : Nat) : dpipe_t :=
  { dpipe with
    out := dpipe.next vbuf
    next := Function.update dpipe.next vbuf none
    out_tail := if dpipe.next vbuf = none then none else dpipe.out_tail
    out_count := dpipe.out_count - 1 }

/-- The `while (true)` loop of source `dpipe_load` (dpipe.cpp:213-232).
`fuel` bounds the number of iterations that are run (`none` means the loop
has not left yet), `k` counts the iterations, `failed` is the local flag, and
`wait k d` is the state of the pipe when the wait started in iteration `k`
from state `d` hands the mutex back (other threads run while the mutex is
released by `cond.wait` and `cond.wait_for`).  The loop has three guarded
branches and no final `else`: when `abstime` is given, `failed` is already
`1` and `out` is `NULL`, no branch is taken and the next iteration starts with
the mutex still held. -/
def dpipe_load_loop (wait : Nat → dpipe_t → dpipe_t) (abstime : Option timespec) :
    Nat → Nat → Int → dpipe_t → Option (Option Nat × dpipe_t)
  | 0, _, _, _ => none
  | fuel + 1, k, failed, dpipe =>
    match dpipe.out with
    | some vbuf => some (some vbuf, dpipe_take_out dpipe vbuf)
    | none =>
      if abstime = none then
        dpipe_load_loop wait abstime fuel (k + 1) failed (wait k dpipe)
      else if failed = 0 then
        dpipe_load_loop wait abstime fuel (k + 1) 1 (wait k dpipe)
      else
        dpipe_load_loop wait abstime fuel (k + 1) failed dpipe

/-- Source `dpipe_load` (dpipe.cpp:208-235): `vbuf = NULL`, `failed = 0`, then
the loop; the value returned is whatever the loop left in `vbuf`. -/
def dpipe_load (wait : Nat → dpipe_t → dpipe_t) (fuel : Nat) (dpipe : dpipe_t)
    (abstime : Option timespec) : Option (Option Nat × dpipe_t) :=
  dpipe_load_loop wait abstime fuel 0 0 dpipe

/-! ### The registry and `dpipe_create` -/

/-- Source `dpipe_lookup` (dpipe.cpp:99-108) on the registry
`map<string,dpipe_t*> dpipemap`; a `dpipe_t *` is `none` (NULL) or the address
of the pipe object. -/
def dpipe_lookup (dpipemap : String → Option Nat) (name : String) : Option Nat :=
  dpipemap name

/-- The effect of source `dpipe_destroy` (dpipe.cpp:116-140) on the registry:
`dpipemap.erase(dpipe->name)` when the name is set.  (Returning the memory of
the buffers has no counterpart in this model.) -/
def dpipe_destroy (dpipemap : String → Option Nat) (dpipe : dpipe_t) :
    String → Option Nat :=
  match dpipe.name with
  | some n => Function.update dpipemap n none
  | none => dpipemap

/-- What the allocator and the memory give `dpipe_create`: the address
returned by `new dpipe_t()`, whether `strdup` succeeds, the result of the
`i`-th `malloc(sizeof(dpipe_buffer_t))` (`none` is NULL), whether the `i`-th
`ga_malloc` succeeds, and the (arbitrary) previous content `mem` of the `next`
fields. -/
structure Alloc where
  new_dpipe : Nat
  strdup_ok : Bool
  malloc : Nat → Option Nat
  ga_malloc : Nat → Bool
  mem : Nat → Option Nat

/-- The frame-allocation loop of `dpipe_create` (dpipe.cpp:68-84), with `n`
iterations left and loop counter `i`; `none` when an allocation fails. -/
def dpipe_create_frames (al : Alloc) : Nat → Nat → dpipe_t → Option dpipe_t
  | 0, _, dpipe => some dpipe
  | n + 1, i, dpipe =>
    match al.malloc i with
    | none => none
    | some dbuffer =>
      if al.ga_malloc i then
        dpipe_create_frames al n (i + 1)
          { dpipe with
            next := Function.update dpipe.next dbuffer dpipe.in_
            in_ := some dbuffer
            in_count := dpipe.in_count + 1 }
      else none

/-- Source `dpipe_create` (dpipe.cpp:45-91): the result is the created pipe
(its address and its content) or `none` (NULL), and the registry afterwards.
A `NULL` name is `none`. -/
def dpipe_create (dpipemap : String → Option Nat) (al : Alloc) (id : Int)
    (name : Option String) (nframe maxframesize : Int) :
    Option (Nat × dpipe_t) × (String → Option Nat) :=
  match name with
  | none => (none, dpipemap)
  | some nm =>
    -- sanity checks
    if id < 0 ∨ nframe ≤ 0 ∨ maxframesize ≤ 0 then (none, dpipemap)
    -- existing?
    else if dpipe_lookup dpipemap nm ≠ none then (none, dpipemap)
    else
      -- new dpipe_t(); bzero; channel_id = id
      let dpipe0 : dpipe_t :=
        { channel_id := id, name := none, in_ := none, out := none, out_tail := none,
          in_count := 0, out_count := 0, next := al.mem }
      if al.strdup_ok then
        let dpipe1 : dpipe_t := { dpipe0 with name := some nm }
        match dpipe_create_frames al nframe.toNat 0 dpipe1 with
        | none => (none, dpipe_destroy dpipemap dpipe1)
        | some dpipe => (some (al.new_dpipe, dpipe), Function.update dpipemap nm (some al.new_dpipe))
      else (none, dpipe_destroy dpipemap dpipe0)

/-! ### Sequences of calls -/

/-- `release(acquire())`: `dpipe_put(dpipe, dpipe_get(dpipe))`.  `none` when
`dpipe_get` returned NULL (which `dpipe_put` would dereference). -/
def release_acquire (dpipe : dpipe_t) : Option dpipe_t :=
  match dpipe_get dpipe with
  | (some vbuf, d) => some (dpipe_put d vbuf)
  | (none, _) => none

/-- The round trip `release(acquire())` performed `N` times. -/
def release_acquire_times : Nat → dpipe_t → Option dpipe_t
  | 0, dpipe => some dpipe
  | N + 1, dpipe => (release_acquire dpipe).bind (release_acquire_times N)

/-- Publishing the entries `es` in order. -/
def store_all (dpipe : dpipe_t) (es : List Nat) : dpipe_t :=
  es.foldl dpipe_store dpipe

/-- How one consume is performed: by `dpipe_load_nowait`, or by `dpipe_load`
with the given `abstime`, the loop being followed for `fuel + 1` iterations. -/
inductive Consume where
  | nowait
  | load (abstime : Option timespec) (fuel : Nat)
deriving DecidableEq, Repr

/-- One consume call; `none` stands for a blocking call that has not returned
within its iterations.  `wait` is what happens to the pipe during the waits of
`dpipe_load`. -/
def consume_with (wait : Nat → dpipe_t → dpipe_t) (dpipe : dpipe_t) :
    Consume → Option (Option Nat × dpipe_t)
  | Consume.nowait => some (dpipe_load_nowait dpipe)
  | Consume.load abstime fuel => dpipe_load wait (fuel + 1) dpipe abstime

/-- Consuming once per element of `cs`, in order: the values returned and the
final state; `none` if one of the calls has not returned. -/
def consume_all (wait : Nat → dpipe_t → dpipe_t) :
    List Consume → dpipe_t → Option (List (Option Nat) × dpipe_t)
  | [], dpipe => some ([], dpipe)
  | c :: cs, dpipe =>
    match consume_with wait dpipe c with
    | none => none
    | some (r, d) =>
      match consume_all wait cs d with
      | none => none
      | some (rs, d2) => some (r :: rs, d2)

/-- The calls a producer and a consumer make on one pipe. -/
inductive Op where
  | acquire
  | release (e : Nat)
  | publish (e : Nat)
  | consume
  | consumeBlocking (abstime : Option timespec)
deriving DecidableEq, Repr

/-- A pipe together with the bookkeeping needed to state ownership and
ordering: `held` are the entries currently held by callers, `tag e` is the tag
written in the frame of entry `e`, `seq` is the number of frames published so
far and `log` the tags of the frames returned by the consume calls, oldest
first. -/
structure Sys where
  d : dpipe_t
  held : List Nat
  tag : Nat → Nat
  seq : Nat
  log : List Nat

/-- The state right after a successful create: nothing held, nothing
published. -/
def Sys.init (d : dpipe_t) : Sys :=
  { d := d, held := [], tag := fun _ => 0, seq := 0, log := [] }

/-- The caller receives what a removal returned. -/
def Sys.receive (s : Sys) (r : Option Nat × dpipe_t) (consumed : Bool) : Sys :=
  match r.1 with
  | some v =>
    { s with
      d := r.2
      held := v :: s.held
      log := if consumed then s.log ++ [s.tag v] else s.log }
  | none => { s with d := r.2 }

/-- One call.  `release` and `publish` obey ownership: they are applied only
to an entry the caller holds (otherwise the call is not made).  `publish`
writes the publish sequence number into the frame before storing it.  A
blocking consume takes effect in the loop iteration that finds an entry; as
long as there is none the pipe is not modified. -/
def step (s : Sys) : Op → Sys
  | Op.acquire => s.receive (dpipe_get s.d) false
  | Op.release e =>
    if e ∈ s.held then { s with d := dpipe_put s.d e, held := s.held.erase e } else s
  | Op.publish e =>
    if e ∈ s.held then
      { s with
        tag := Function.update s.tag e (s.seq + 1)
        seq := s.seq + 1
        d := dpipe_store s.d e
        held := s.held.erase e }
    else s
  | Op.consume => s.receive (dpipe_load_nowait s.d) true
  | Op.consumeBlocking abstime =>
    match dpipe_load (fun _ d => d) 1 s.d abstime with
    | some r => s.receive r true
    | none => s

/-- The state after the calls `ops`, in order. -/
def run (s : Sys) (ops : List Op) : Sys :=
  ops.foldl step s

/-- The invariant of the reachable states of a pool of `P` entries with free
list `F` and ready list `R`. -/
def Inv (P : Int) (s : Sys) (F R : List Nat) : Prop :=
  WF s.d F R ∧ (F ++ R ++ s.held).Nodup ∧
    s.d.in_count = F.length ∧ s.d.out_count = R.length ∧
    (F.length : Int) + R.length + s.held.length = P

/-- The pipe that `dpipe_create` builds for `video-1` with three frames from
the allocator `alloc_ok`: free list 102, 101, 100. -/
def pipe_new3 : dpipe_t :=
  { channel_id := 0, name := some "video-1", in_ := some 102, out := none,
    out_tail := none, in_count := 3, out_count := 0,
    next := Function.update (Function.update (Function.update (fun _ => none)
      100 none) 101 (some 100)) 102 (some 101) }

/-- The pipe that `dpipe_create` builds for `video-1` with a single frame
from the allocator `alloc_ok`. -/
def pipe_new1 : dpipe_t :=
  { channel_id := 0, name := some "video-1", in_ := some 100, out := none,
    out_tail := none, in_count := 1, out_count := 0,
    next := Function.update (fun _ => none) 100 none }

/-- A producer and a consumer working on a pool of three entries: frames 1
and 2 are published, frame 1 is consumed and released, frame 3 is published,
the producer acquires twice more (the second acquire finds the free list
empty and evicts frame 2), frame 4 is published, and the consumer drains: it
sees frames 1, 3, 4. -/
def ops_example : List Op :=
  [Op.acquire, Op.publish 102, Op.acquire, Op.publish 101, Op.consume,
    Op.release 102, Op.acquire, Op.publish 102, Op.acquire, Op.acquire,
    Op.publish 101, Op.consumeBlocking none, Op.consume,
    Op.consumeBlocking (some ⟨0, 100000000⟩)]

/-- The ordering invariant: the tags consumed so far, followed by the tags of
the ready frames (oldest first), are strictly increasing publish sequence
numbers between `1` and `seq`. -/
def TagInv (s : Sys) (R : List Nat) : Prop :=
  (s.log ++ R.map s.tag).Pairwise (fun x y => x < y) ∧
    ∀ x ∈ s.log ++ R.map s.tag, 1 ≤ x ∧ x ≤ s.seq

/-- An example registry in which only the pipe `video-0` is registered (at
address 7). -/
def registry_video0 : String → Option Nat :=
  fun n => if n = "video-0" then some 7 else none

/-- An example allocator in which every allocation succeeds: the pipe object
is placed at address 9 and the `i`-th frame buffer at address `100 + i`. -/
def alloc_ok : Alloc :=
  { new_dpipe := 9, strdup_ok := true, malloc := fun i => some (100 + i),
    ga_malloc := fun _ => true, mem := fun _ => none }

/-! ### The audio buffer (core/src/asource.cpp)

The byte array `ab->buffer`, the source `data` of a fill and the destination
`buf` of a read are memories indexed by byte offset (`Int → Nat`, a byte being
a number).  The C `int` fields are modelled as `Int` and `/` of the source is
the truncating division `Int.tdiv`.  The definitions of this section compute
with exact integers: they give what the code does in the calls in which every
`int` operation stays within the range of an `int` and every byte count is
non-negative (a copy or a `memset` of zero bytes changes nothing).  The
section on `int` arithmetic further down follows the same source lines with
the wrapping arithmetic of the machine. -/

/-- The fields of `audio_buffer_t` other than the mutex and the condition
variable. -/
structure audio_buffer_t where
  channels : Int
  bitspersample : Int
  frames : Int
  bufsize : Int
  bufhead : Int
  buftail : Int
  bframes : Int
  bufPts : Int
  buffer : Int → Nat

/-- Copying `n` bytes from offset `soff` of `src` to offset `doff` of `dst`
(`std::copy`, `bcopy`): the content of `dst` afterwards.  Every byte is read
from the source as it was before the copy, which is what the forward copy of
the source gives when the destination starts below the source. -/
def copy_bytes (src : Int → Nat) (soff : Int) (dst : Int → Nat) (doff n : Int) :
    Int → Nat :=
  fun j => if doff ≤ j ∧ j < doff + n then src (soff + (j - doff)) else dst j

/-- The call `memset(&dst[doff], 0, n)`: the content of `dst` afterwards. -/
def memset_zero (dst : Int → Nat) (doff n : Int) : Int → Nat :=
  fun j => if doff ≤ j ∧ j < doff + n then 0 else dst j

/-- The `n` bytes of the memory `m` from offset `off` on, in order. -/
def bytes_of (m : Int → Nat) (off n : Int) : List Nat :=
  (List.range n.toNat).map (fun (i : Nat) => m (off + (i : Int)))

/-- The live bytes `buffer[bufhead .. buftail)`. -/
def live_bytes (ab : audio_buffer_t) : List Nat :=
  bytes_of ab.buffer ab.bufhead (ab.buftail - ab.bufhead)

/-- The bytes that a fill of `n` bytes appends: those of `data`, or zeros when
`data` is NULL (`none`). -/
def fill_bytes (data : Option (Int → Nat)) (n : Int) : List Nat :=
  match data with
  | none => List.replicate n.toNat 0
  | some d => bytes_of d 0 n

/-- The part of source `audio_source_buffer_fill_one` from the label `retry`
on (asource.cpp:77-102); `fuel` bounds the number of passes through the label
(`none`: still looping). -/
def audio_fill_retry (data : Option (Int → Nat)) (frames framesize : Int) :
    Nat → audio_buffer_t → Option audio_buffer_t
  | 0, _ => none
  | fuel + 1, ab =>
    let headspace := ab.bufhead
    let tailspace := ab.bufsize - ab.buftail
    if framesize > headspace + tailspace then
      -- buffer overflow, packet dropped
      some ab
    else if framesize ≤ tailspace then
      -- case #1: tailspace is sufficient, append at the end
      some
        { ab with
          buffer :=
            match data with
            | none => memset_zero ab.buffer ab.buftail framesize
            | some d => copy_bytes d 0 ab.buffer ab.buftail framesize
          buftail := ab.buftail + framesize
          bframes := ab.bframes + frames }
    else
      -- case #2: framesize > tailspace, but overall space is sufficient
      audio_fill_retry data frames framesize fuel
        { ab with
          buffer := copy_bytes ab.buffer ab.bufhead ab.buffer 0 (ab.buftail - ab.bufhead)
          buftail := ab.buftail - ab.bufhead
          bufhead := 0 }

/-- Source `audio_source_buffer_fill_one` (asource.cpp:67-105) on a non-null
buffer. -/
def audio_source_buffer_fill_one (fuel : Nat) (ab : audio_buffer_t)
    (data : Option (Int → Nat)) (frames : Int) : Option audio_buffer_t :=
  if frames ≤ 0 then some ab
  else
    audio_fill_retry data frames (Int.tdiv (frames * ab.channels * ab.bitspersample) 8)
      fuel ab

/-- Source `audio_source_buffer_read` (asource.cpp:117-153): the value
returned, the buffer and the destination `buf` afterwards.  `wait ab` is the
buffer when `bufcond.wait_for` returns (a producer may fill it while the
mutex is released). -/
def audio_source_buffer_read (wait : audio_buffer_t → audio_buffer_t)
    (ab : audio_buffer_t) (buf : Int → Nat) (frames : Int) :
    Int × audio_buffer_t × (Int → Nat) :=
  if frames ≤ 0 then (0, ab, buf)
  else
    let ab1 := if ab.bframes = 0 then wait ab else ab
    let copyframe := if ab1.bframes ≥ frames then frames else ab1.bframes
    if copyframe > 0 then
      let copysize := Int.tdiv (copyframe * ab1.channels * ab1.bitspersample) 8
      let buf2 := copy_bytes ab1.buffer ab1.bufhead buf 0 copysize
      let ab2 : audio_buffer_t :=
        { ab1 with
          bufhead := ab1.bufhead + copysize
          bframes := ab1.bframes - copyframe
          bufPts := ab1.bufPts + copyframe }
      let ab3 : audio_buffer_t :=
        if ab2.bframes = 0 then { ab2 with bufhead := 0, buftail := 0 } else ab2
      (copyframe, ab3, buf2)
    else (copyframe, ab1, buf)

/-- Source `audio_source_buffer_purge` (asource.cpp:155-161). -/
def audio_source_buffer_purge (ab : audio_buffer_t) : audio_buffer_t :=
  { ab with bufPts := 0, bufhead := 0, buftail := 0, bframes := 0 }

/-- The static configuration `gChunksize`, `gSamplerate`, `gBitspersample`,
`gChannels`. -/
structure audio_config where
  gChunksize : Int
  gSamplerate : Int
  gBitspersample : Int
  gChannels : Int
deriving DecidableEq, Repr

/-- Source `audio_source_setup` (asource.cpp:188-193). -/
def audio_source_setup (chunksize samplerate bitspersample channels : Int) : audio_config :=
  { gChunksize := chunksize, gSamplerate := samplerate, gBitspersample := bitspersample,
    gChannels := channels }

/-- Source `audio_source_buffer_init` (asource.cpp:30-57).  `malloc_ab` tells
whether the `malloc` of the structure succeeds and `malloc_buffer size` is the
result of `malloc(ab->bufsize)`: `none` for NULL, otherwise the (arbitrary)
content of the new byte array. -/
def audio_source_buffer_init (g : audio_config) (malloc_ab : Bool)
    (malloc_buffer : Int → Option (Int → Nat)) : Option audio_buffer_t :=
  let frames := g.gChunksize * 4
  let channels := g.gChannels
  let bitspersample := g.gBitspersample
  if frames = 0 ∨ channels = 0 ∨ bitspersample = 0 then none
  else if malloc_ab = false then none
  else
    let bufsize := Int.tdiv (frames * channels * bitspersample) 8
    match malloc_buffer bufsize with
    | none => none
    | some content =>
      some
        { channels := channels, bitspersample := bitspersample, frames := frames,
          bufsize := bufsize, bufhead := 0, buftail := 0, bframes := 0, bufPts := 0,
          buffer := content }

/-- Source `audio_source_buffer_fill` (asource.cpp:107-115): `clients` are the
entries `(tid, ab)` of `gClients` in the order of the iteration (`none` is a
NULL buffer pointer, `some p` the buffer object at address `p`) and `heap` maps
the address of a buffer object to its content; the result is `heap`
afterwards. -/
def audio_source_buffer_fill (fuel : Nat) (data : Option (Int → Nat)) (frames : Int) :
    List (Int × Option Nat) → (Nat → audio_buffer_t) → Option (Nat → audio_buffer_t)
  | [], heap => some heap
  | (_, none) :: rest, heap => audio_source_buffer_fill fuel data frames rest heap
  | (_, some p) :: rest, heap =>
    match audio_source_buffer_fill_one fuel (heap p) data frames with
    | none => none
    | some ab =>
      audio_source_buffer_fill fuel data frames rest (Function.update heap p ab)

/-- Source `audio_source_client_register` (asource.cpp:163-166):
`gClients[tid] = ab`. -/
def audio_source_client_register (clients : List (Int × Option Nat)) (tid : Int)
    (ab : Option Nat) : List (Int × Option Nat) :=
  if clients.any (fun c => c.1 = tid) then
    clients.map (fun c => if c.1 = tid then (tid, ab) else c)
  else (tid, ab) :: clients

/-- Source `audio_source_client_unregister` (asource.cpp:168-171):
`gClients.erase(tid)`. -/
def audio_source_client_unregister (clients : List (Int × Option Nat)) (tid : Int) :
    List (Int × Option Nat) :=
  clients.filter (fun c => c.1 ≠ tid)

/-- A consistent audio buffer whose frames occupy a whole number of bytes:
`channels * bitspersample` is a non-negative multiple of 8, the offsets are
ordered, the live region holds exactly `bframes` frames, and an empty buffer
has its offsets at zero. -/
def audio_wf (ab : audio_buffer_t) : Prop :=
  0 ≤ ab.channels * ab.bitspersample ∧ (ab.channels * ab.bitspersample) % 8 = 0 ∧
    0 ≤ ab.bframes ∧ 0 ≤ ab.bufhead ∧ ab.bufhead ≤ ab.buftail ∧
    ab.buftail - ab.bufhead = ab.bframes * (ab.channels * ab.bitspersample / 8) ∧
    (ab.bframes = 0 → ab.bufhead = 0)

instance audio_wf.instDecidable (ab : audio_buffer_t) : Decidable (audio_wf ab) :=
  inferInstanceAs (Decidable (0 ≤ ab.channels * ab.bitspersample ∧
    (ab.channels * ab.bitspersample) % 8 = 0 ∧
    0 ≤ ab.bframes ∧ 0 ≤ ab.bufhead ∧ ab.bufhead ≤ ab.buftail ∧
    ab.buftail - ab.bufhead = ab.bframes * (ab.channels * ab.bitspersample / 8) ∧
    (ab.bframes = 0 → ab.bufhead = 0)))

/-- The calls made on one audio buffer. -/
inductive AudioOp where
  | fill (data : Option (Int → Nat)) (frames : Int)
  | read (frames : Int)
  | purge

/-- Example audio data: byte `j` of the packet is `j mod 256`. -/
def pcm : Int → Nat :=
  fun j => j.toNat % 256

/-- The configuration for buffers of 100 frames of 16-bit stereo:
`audio_source_setup(25, 44100, 16, 2)`. -/
def audio_cfg_100 : audio_config :=
  audio_source_setup 25 44100 16 2

/-- The buffer that `audio_source_buffer_init` creates for `audio_cfg_100`
when `malloc` returns zeroed memory: 100 frames, 400 bytes, empty. -/
def audio_buf_100 : audio_buffer_t :=
  { channels := 2, bitspersample := 16, frames := 100, bufsize := 400, bufhead := 0,
    buftail := 0, bframes := 0, bufPts := 0, buffer := fun _ => 0 }

/-- The buffer `audio_buf_100` after a fill of 60 frames (240 bytes) of
`pcm`. -/
def audio_buf_100_60 : audio_buffer_t :=
  { channels := 2, bitspersample := 16, frames := 100, bufsize := 400, bufhead := 0,
    buftail := 240, bframes := 60, bufPts := 0,
    buffer := copy_bytes pcm 0 (fun _ => 0) 0 240 }

/-- An example buffer of 8 bytes of 8-bit mono audio in which 4 frames have
been read and 2 are buffered (bytes 4 and 5). -/
def audio_buf_small : audio_buffer_t :=
  { channels := 1, bitspersample := 8, frames := 8, bufsize := 8, bufhead := 4,
    buftail := 6, bframes := 2, bufPts := 4, buffer := fun j => j.toNat }

/-- The buffer `audio_buf_100` after a fill of 5 frames (20 bytes) of
`pcm`. -/
def audio_buf_100_5 : audio_buffer_t :=
  { channels := 2, bitspersample := 16, frames := 100, bufsize := 400, bufhead := 0,
    buftail := 20, bframes := 5, bufPts := 0,
    buffer := copy_bytes pcm 0 (fun _ => 0) 0 20 }

/-- The buffer that `audio_source_buffer_init` creates after
`audio_source_setup(2, 44100, 12, 1)` (12-bit mono, 8 frames, 12 bytes) when
`malloc` returns zeroed memory. -/
def audio_buf_12bit : audio_buffer_t :=
  { channels := 1, bitspersample := 12, frames := 8, bufsize := 12, bufhead := 0,
    buftail := 0, bframes := 0, bufPts := 0, buffer := fun _ => 0 }

/-- Five fills of one frame each, then a read of four frames. -/
def audio_ops_12bit : List AudioOp :=
  [AudioOp.fill (some pcm) 1, AudioOp.fill (some pcm) 1, AudioOp.fill (some pcm) 1,
    AudioOp.fill (some pcm) 1, AudioOp.fill (some pcm) 1, AudioOp.read 4]

/-- An example registry built by three registrations: client 1 with the
buffer at address 0, client 2 with the buffer at address 1, client 3 with a
NULL buffer. -/
def audio_clients_example : List (Int × Option Nat) :=
  audio_source_client_register
    (audio_source_client_register (audio_source_client_register [] 1 (some 0)) 2 (some 1))
    3 none

/-- An example heap of buffer objects: the buffer at address 0 already holds
60 frames, every other buffer is empty. -/
def audio_heap_example : Nat → audio_buffer_t :=
  fun p => if p = 0 then audio_buf_100_60 else audio_buf_100

/-! ### The watchdog (client/src/main.cpp) -/

/-- The `struct timeval` of `gettimeofday`. -/
structure timeval where
  tv_sec : Int
  tv_usec : Int
deriving DecidableEq, Repr

/-- The macro `IDLE_MAXIMUM_THRESHOLD` (main.cpp:49), in microseconds. -/
def IDLE_MAXIMUM_THRESHOLD : Int := 3600000

/-- The macro `IDLE_DETECTION_THRESHOLD` (main.cpp:50), in microseconds. -/
def IDLE_DETECTION_THRESHOLD : Int := 600000

/-- Modelled from the spec: `tvdiff_us(&tv1, &tv2)` is declared in the common
library, which is not part of the sources at hand; it is the time elapsed
from `tv2` to `tv1` in microseconds. -/
def tvdiff_us (tv1 tv2 : timeval) : Int :=
  (tv1.tv_sec - tv2.tv_sec) * 1000000 + (tv1.tv_usec - tv2.tv_usec)

/-- The conversion `(int) x` of a `long long`. -/
def int_cast (x : Int) : Int :=
  (x + 2147483648) % 4294967296 - 2147483648

/-- What one pass through the loop of `watchdog_thread` does: nothing but the
log line while no frame has been received (`waiting`), nothing (`idle`), the
push of the `SDL_USEREVENT_RENDER_TEXT` event whose message announces the
termination in `seconds` second(s) (`stall`), or the termination. -/
inductive watchdog_action where
  | waiting
  | idle
  | stall (seconds : Int)
  | terminate
deriving DecidableEq, Repr

/-- The state that `watchdog_thread` works on: the flag
`rtspThreadParam.running`, whether the loop has been left (`exit(-1)`
follows), and what the passes through the loop did so far, oldest first. -/
structure watchdog_t where
  running : Bool
  exited : Bool
  trace : List watchdog_action
deriving DecidableEq, Repr

/-- The body of the loop of source `watchdog_thread` after the sleep
(main.cpp:647-684): `watchdogTimer` is the shared timestamp as it is when the
mutex is taken, `tv` the result of `gettimeofday`, and `tvdiff` the function
`tvdiff_us`. -/
def watchdog_iteration (tvdiff : timeval → timeval → Int) (watchdogTimer tv : timeval)
    (w : watchdog_t) : watchdog_t :=
  if watchdogTimer.tv_sec ≠ 0 then
    let d := tvdiff tv watchdogTimer
    if d > IDLE_MAXIMUM_THRESHOLD then
      { w with running := false, exited := true, trace := w.trace ++ [watchdog_action.terminate] }
    else if d > IDLE_DETECTION_THRESHOLD then
      -- update message and show
      { w with
        trace := w.trace ++
          [watchdog_action.stall (Int.tdiv (int_cast (IDLE_MAXIMUM_THRESHOLD - d)) 1000000)] }
    else
      -- do nothing
      { w with trace := w.trace ++ [watchdog_action.idle] }
  else { w with trace := w.trace ++ [watchdog_action.waiting] }

/-- The loop of source `watchdog_thread` (main.cpp:640-685) over the polling
ticks `ticks`: each tick gives the value of `watchdogTimer` and the time `tv`
read in that pass.  The loop is left by the `break` of the termination. -/
def watchdog_thread (tvdiff : timeval → timeval → Int) :
    List (timeval × timeval) → watchdog_t → watchdog_t
  | [], w => w
  | t :: rest, w =>
    if (watchdog_iteration tvdiff t.1 t.2 w).exited then watchdog_iteration tvdiff t.1 t.2 w
    else watchdog_thread tvdiff rest (watchdog_iteration tvdiff t.1 t.2 w)

/-- The state in which `watchdog_thread` starts. -/
def watchdog_start : watchdog_t :=
  { running := true, exited := false, trace := [] }

/-- The ticks of a loop that polls every second: `n` ticks, the first at time
`t0`, each one second after the previous one, the timestamp `watchdogTimer`
staying as recorded. -/
def poll_every_second (watchdogTimer t0 : timeval) (n : Nat) : List (timeval × timeval) :=
  (List.range n).map
    (fun (k : Nat) => (watchdogTimer, { tv_sec := t0.tv_sec + k, tv_usec := t0.tv_usec }))

/-- The number of stall messages among the actions. -/
def count_stall : List watchdog_action → Nat
  | [] => 0
  | watchdog_action.stall _ :: rest => count_stall rest + 1
  | _ :: rest => count_stall rest

/-- The number of terminations among the actions. -/
def count_terminate : List watchdog_action → Nat
  | [] => 0
  | watchdog_action.terminate :: rest => count_terminate rest + 1
  | _ :: rest => count_terminate rest

/-- An example timestamp of the last frame: second 1000 sharp. -/
def timer_1000 : timeval :=
  { tv_sec := 1000, tv_usec := 0 }

/-- An allocator of byte arrays that returns zeroed memory, and NULL for a
negative size (which `malloc` receives as a size beyond the address space). -/
def malloc_zeroed (size : Int) : Option (Int → Nat) :=
  if size < 0 then none else some (fun _ => 0)

/-! ### The audio buffer in `int` arithmetic

The definitions above compute with exact integers; they agree with the code
as long as every `int` operation stays within the range of an `int` and every
byte count handed to `memset`, `std::copy` and `bcopy` is non-negative.  The
definitions of this section follow the same source lines with the arithmetic
of the machine: an `int` has 32 bits and its operations wrap modulo `2^32`,
`bufPts` is a `long long` of 64 bits.  A result `none` stands for a call that
has no defined result: a negative byte count reaches `memset`, `std::copy` or
`bcopy`, or the fill is still at the label `retry` when the fuel is used
up. -/

/-- The product of two `int` values, as an `int`. -/
def int_mul (a b : Int) : Int :=
  int_cast (a * b)

/-- The sum of two `int` values, as an `int`. -/
def int_add (a b : Int) : Int :=
  int_cast (a + b)

/-- The difference of two `int` values, as an `int`. -/
def int_sub (a b : Int) : Int :=
  int_cast (a - b)

/-- The sum of two `long long` values, as a `long long`. -/
def llong_add (a b : Int) : Int :=
  (a + b + 9223372036854775808) % 18446744073709551616 - 9223372036854775808

/-- The `int` expression `frames * channels * bitspersample / 8`
(asource.cpp:51, 75, 140): two `int` products from left to right, then the
truncating division. -/
def framesize_int (frames channels bitspersample : Int) : Int :=
  Int.tdiv (int_mul (int_mul frames channels) bitspersample) 8

/-- The part of source `audio_source_buffer_fill_one` from the label `retry`
on (asource.cpp:77-102) in `int` arithmetic; `fuel` bounds the number of
passes through the label. -/
def audio_fill_retry_int (data : Option (Int → Nat)) (frames framesize : Int) :
    Nat → audio_buffer_t → Option audio_buffer_t
  | 0, _ => none
  | fuel + 1, ab =>
    let headspace := ab.bufhead
    let tailspace := int_sub ab.bufsize ab.buftail
    if framesize > int_add headspace tailspace then
      -- buffer overflow, packet dropped
      some ab
    else if framesize ≤ tailspace then
      -- case #1: tailspace is sufficient, append at the end
      if framesize < 0 then none
      else
        some
          { ab with
            buffer :=
              match data with
              | none => memset_zero ab.buffer ab.buftail framesize
              | some d => copy_bytes d 0 ab.buffer ab.buftail framesize
            buftail := int_add ab.buftail framesize
            bframes := int_add ab.bframes frames }
    else
      -- case #2: framesize > tailspace, but overall space is sufficient
      if ab.buftail - ab.bufhead < 0 then none
      else
        audio_fill_retry_int data frames framesize fuel
          { ab with
            buffer := copy_bytes ab.buffer ab.bufhead ab.buffer 0 (ab.buftail - ab.bufhead)
            buftail := int_sub ab.buftail ab.bufhead
            bufhead := 0 }

/-- Source `audio_source_buffer_fill_one` (asource.cpp:67-105) on a non-null
buffer, in `int` arithmetic. -/
def audio_source_buffer_fill_one_int (fuel : Nat) (ab : audio_buffer_t)
    (data : Option (Int → Nat)) (frames : Int) : Option audio_buffer_t :=
  if frames ≤ 0 then some ab
  else
    audio_fill_retry_int data frames (framesize_int frames ab.channels ab.bitspersample)
      fuel ab

/-- Source `audio_source_buffer_read` (asource.cpp:117-153) in `int`
arithmetic: the value returned, the buffer and the destination `buf`
afterwards.  `wait ab` is the buffer when `bufcond.wait_for` returns. -/
def audio_source_buffer_read_int (wait : audio_buffer_t → audio_buffer_t)
    (ab : audio_buffer_t) (buf : Int → Nat) (frames : Int) :
    Option (Int × audio_buffer_t × (Int → Nat)) :=
  if frames ≤ 0 then some (0, ab, buf)
  else
    let ab1 := if ab.bframes = 0 then wait ab else ab
    let copyframe := if ab1.bframes ≥ frames then frames else ab1.bframes
    if copyframe > 0 then
      let copysize := framesize_int copyframe ab1.channels ab1.bitspersample
      if copysize < 0 then none
      else
        let buf2 := copy_bytes ab1.buffer ab1.bufhead buf 0 copysize
        let ab2 : audio_buffer_t :=
          { ab1 with
            bufhead := int_add ab1.bufhead copysize
            bframes := int_sub ab1.bframes copyframe
            bufPts := llong_add ab1.bufPts copyframe }
        let ab3 : audio_buffer_t :=
          if ab2.bframes = 0 then { ab2 with bufhead := 0, buftail := 0 } else ab2
        some (copyframe, ab3, buf2)
    else some (copyframe, ab1, buf)

/-- Source `audio_source_buffer_init` (asource.cpp:30-57) in `int`
arithmetic; `malloc_ab` and `malloc_buffer` are as in
`audio_source_buffer_init`. -/
def audio_source_buffer_init_int (g : audio_config) (malloc_ab : Bool)
    (malloc_buffer : Int → Option (Int → Nat)) : Option audio_buffer_t :=
  let frames := int_mul g.gChunksize 4
  let channels := g.gChannels
  let bitspersample := g.gBitspersample
  if frames = 0 ∨ channels = 0 ∨ bitspersample = 0 then none
  else if malloc_ab = false then none
  else
    let bufsize := framesize_int frames channels bitspersample
    match malloc_buffer bufsize with
    | none => none
    | some content =>
      some
        { channels := channels, bitspersample := bitspersample, frames := frames,
          bufsize := bufsize, bufhead := 0, buftail := 0, bframes := 0, bufPts := 0,
          buffer := content }

/-- One call on the buffer in `int` arithmetic.  A fill passes the label
`retry` at most twice; a read copies into a fresh destination and nothing is
filled while it waits. -/
def audio_step_int (ab : audio_buffer_t) : AudioOp → Option audio_buffer_t
  | AudioOp.fill data frames => audio_source_buffer_fill_one_int 2 ab data frames
  | AudioOp.read frames =>
    (audio_source_buffer_read_int (fun x => x) ab (fun _ => 0) frames).map (fun r => r.2.1)
  | AudioOp.purge => some (audio_source_buffer_purge ab)

/-- The buffer after the calls `ops`, in order, in `int` arithmetic. -/
def audio_run_int : List AudioOp → audio_buffer_t → Option audio_buffer_t
  | [], ab => some ab
  | op :: ops, ab => (audio_step_int ab op).bind (audio_run_int ops)

/-- The offsets and the frame count of a buffer: `bufhead`, `buftail`,
`bframes`. -/
def audio_offsets (ab : audio_buffer_t) : Int × Int × Int :=
  (ab.bufhead, ab.buftail, ab.bframes)

/-- A fill of `2^27` frames, then a read of 100 frames. -/
def audio_ops_wrap : List AudioOp :=
  [AudioOp.fill (some pcm) 134217728, AudioOp.read 100]

/-! ## Chains of buffers -/

theorem isList_update_of_not_mem (next : Nat → Option Nat) (a : Nat) (v : Option Nat) :
    ∀ (l : List Nat) (p : Option Nat), a ∉ l → isList next p l →
      isList (Function.update next a v) p l := by
  intro l
  induction l with
  | nil => intro p _ h; exact h
  | cons b l ih =>
    intro p hmem h
    obtain ⟨hp, hl⟩ := h
    have hba : b ≠ a := fun e => hmem (by simp [e])
    refine ⟨hp, ?_⟩
    rw [Function.update_noteq hba]
    exact ih _ (fun hm => hmem (List.mem_cons_of_mem _ hm)) hl

theorem isList_functional (next : Nat → Option Nat) :
    ∀ (l1 l2 : List Nat) (p : Option Nat), isList next p l1 → isList next p l2 → l1 = l2 := by
  intro l1
  induction l1 with
  | nil =>
    intro l2 p h1 h2
    cases l2 with
    | nil => rfl
    | cons b l2 =>
      have h1p : p = none := h1
      have h2p : p = some b := h2.1
      rw [h1p] at h2p
      cases h2p
  | cons a l1 ih =>
    intro l2 p h1 h2
    cases l2 with
    | nil =>
      have h2p : p = none := h2
      have h1p : p = some a := h1.1
      rw [h2p] at h1p
      cases h1p
    | cons b l2 =>
      have hab : a = b := Option.some.inj (h1.1.symm.trans h2.1)
      subst hab
      rw [ih l2 _ h1.2 h2.2]

theorem isList_suffix (next : Nat → Option Nat) :
    ∀ (l1 l2 : List Nat) (p : Option Nat) (a : Nat), isList next p (l1 ++ a :: l2) →
      isList next (some a) (a :: l2) := by
  intro l1
  induction l1 with
  | nil =>
    intro l2 p a h
    exact ⟨rfl, h.2⟩
  | cons b l1 ih =>
    intro l2 p a h
    exact ih l2 _ a h.2

theorem isList_nodup (next : Nat → Option Nat) :
    ∀ (l : List Nat) (p : Option Nat), isList next p l → l.Nodup := by
  intro l
  induction l with
  | nil => intro _ _; exact List.nodup_nil
  | cons a l ih =>
    intro p h
    refine List.nodup_cons.mpr ⟨?_, ih _ h.2⟩
    intro hmem
    obtain ⟨l1, l2, hl⟩ := List.append_of_mem hmem
    have h1 : isList next (some a) (a :: l) := ⟨rfl, h.2⟩
    have h2 : isList next (some a) (a :: l2) := by
      have h3 : isList next (next a) (l1 ++ a :: l2) := hl ▸ h.2
      exact isList_suffix next l1 l2 _ a h3
    have h4 := isList_functional next _ _ _ h1 h2
    have h5 : l.length = l2.length := by
      have := congrArg List.length h4
      simpa using this
    rw [hl] at h5
    simp at h5
    omega

theorem isList_snoc (next : Nat → Option Nat) (b : Nat) :
    ∀ (l : List Nat) (p : Option Nat) (t : Nat), isList next p l → l.getLast? = some t →
      b ∉ l →
      isList (Function.update (Function.update next t (some b)) b none) p (l ++ [b]) := by
  intro l
  induction l with
  | nil => intro p t _ ht; simp at ht
  | cons a l ih =>
    intro p t h ht hb
    have hab : a ≠ b := fun e => hb (by simp [e])
    have hbl : b ∉ l := fun hm => hb (List.mem_cons_of_mem _ hm)
    refine ⟨h.1, ?_⟩
    rw [Function.update_noteq hab]
    cases l with
    | nil =>
      have hta : t = a := by simpa using ht.symm
      subst hta
      rw [Function.update_same]
      exact ⟨rfl, by rw [Function.update_same]; rfl⟩
    | cons c l =>
      have hnd := isList_nodup next _ _ h
      have ht2 : (c :: l).getLast? = some t := by simpa [List.getLast?_cons_cons] using ht
      have htm : t ∈ c :: l := List.mem_of_getLast?_eq_some ht2
      have hat : a ≠ t := fun e => (List.nodup_cons.mp hnd).1 (e ▸ htm)
      rw [Function.update_noteq hat]
      exact ih _ t h.2 ht2 hbl

/-! ## The operations on a well-formed pipe -/

theorem getLast?_tail_of_cons_cons (a b : Nat) (l : List Nat) :
    (a :: b :: l).getLast? = (b :: l).getLast? := by
  simp [List.getLast?_cons_cons]

/-- Removing the head `a` of the ready list `a :: R` (the code shared by the
eviction branch of `dpipe_get`, `dpipe_load` and `dpipe_load_nowait`). -/
theorem WF_take_out (d : dpipe_t) (F R : List Nat) (a : Nat) (h : WF d F (a :: R)) :
    WF (dpipe_take_out d a) F R := by
  obtain ⟨hF, hR, ht, hnd⟩ := h
  have haF : a ∉ F := fun hm =>
    (List.nodup_append.mp hnd).2.2 hm (List.mem_cons_self a R)
  have haR : a ∉ R :=
    (List.nodup_cons.mp (List.nodup_append.mp hnd).2.1).1
  refine ⟨?_, ?_, ?_, ?_⟩
  · exact isList_update_of_not_mem _ _ _ _ _ haF hF
  · exact isList_update_of_not_mem _ _ _ _ _ haR hR.2
  · show (if d.next a = none then none else d.out_tail) = R.getLast?
    cases R with
    | nil =>
      have : d.next a = none := hR.2
      simp [this]
    | cons b R =>
      have : d.next a = some b := hR.2.1
      simp only [this, if_false, reduceCtorEq]
      rw [ht, getLast?_tail_of_cons_cons]
  · have hsub : (F ++ R).Sublist (F ++ a :: R) :=
      List.Sublist.append_left (List.sublist_cons_self a R) F
    exact hnd.sublist hsub

theorem WF_out_eq (d : dpipe_t) (F R : List Nat) (a : Nat) (h : WF d F (a :: R)) :
    d.out = some a := h.2.1.1

theorem WF_in_eq (d : dpipe_t) (F R : List Nat) (a : Nat) (h : WF d (a :: F) R) :
    d.in_ = some a := h.1.1

theorem WF_in_nil (d : dpipe_t) (R : List Nat) (h : WF d [] R) : d.in_ = none := h.1

theorem WF_out_nil (d : dpipe_t) (F : List Nat) (h : WF d F []) : d.out = none := h.2.1

theorem dpipe_get_eq_free (d : dpipe_t) (a : Nat) (hin : d.in_ = some a) :
    dpipe_get d = (some a,
      { d with
        in_ := d.next a
        next := Function.update d.next a none
        in_count := d.in_count - 1 }) := by
  simp [dpipe_get, hin]

theorem dpipe_get_free (d : dpipe_t) (F R : List Nat) (a : Nat) (h : WF d (a :: F) R) :
    (dpipe_get d).1 = some a ∧ WF (dpipe_get d).2 F R ∧
      (dpipe_get d).2.in_count = d.in_count - 1 ∧
      (dpipe_get d).2.out = d.out ∧ (dpipe_get d).2.out_tail = d.out_tail ∧
      (dpipe_get d).2.out_count = d.out_count := by
  have hin := WF_in_eq d F R a h
  obtain ⟨hF, hR, ht, hnd⟩ := h
  have hnd2 : a ∉ F ++ R := (List.nodup_cons.mp (by simpa using hnd)).1
  have haF : a ∉ F := fun hm => hnd2 (List.mem_append_left _ hm)
  have haR : a ∉ R := fun hm => hnd2 (List.mem_append_right _ hm)
  rw [dpipe_get_eq_free d a hin]
  refine ⟨rfl, ⟨?_, ?_, ht, ?_⟩, rfl, rfl, rfl, rfl⟩
  · exact isList_update_of_not_mem _ _ _ _ _ haF hF.2
  · exact isList_update_of_not_mem _ _ _ _ _ haR hR
  · exact (List.nodup_cons.mp (by simpa using hnd)).2

theorem dpipe_get_eq_take_out (d : dpipe_t) (a : Nat) (hin : d.in_ = none)
    (hout : d.out = some a) : dpipe_get d = (some a, dpipe_take_out d a) := by
  simp [dpipe_get, hin, hout, dpipe_take_out]

theorem dpipe_load_nowait_eq_take_out (d : dpipe_t) (a : Nat) (hout : d.out = some a) :
    dpipe_load_nowait d = (some a, dpipe_take_out d a) := by
  simp [dpipe_load_nowait, hout, dpipe_take_out]

theorem dpipe_load_eq_take_out (wait : Nat → dpipe_t → dpipe_t) (fuel : Nat) (d : dpipe_t)
    (abstime : Option timespec) (a : Nat) (hout : d.out = some a) :
    dpipe_load wait (fuel + 1) d abstime = some (some a, dpipe_take_out d a) := by
  simp [dpipe_load, dpipe_load_loop, hout]

theorem dpipe_get_evict (d : dpipe_t) (R : List Nat) (a : Nat) (h : WF d [] (a :: R)) :
    (dpipe_get d).1 = some a ∧ WF (dpipe_get d).2 [] R ∧
      (dpipe_get d).2.out_count = d.out_count - 1 ∧
      (dpipe_get d).2.in_count = d.in_count := by
  rw [dpipe_get_eq_take_out d a (WF_in_nil d _ h) (WF_out_eq d _ _ a h)]
  exact ⟨rfl, WF_take_out d [] R a h, rfl, rfl⟩

theorem dpipe_get_none (d : dpipe_t) (h : WF d [] []) : dpipe_get d = (none, d) := by
  simp [dpipe_get, WF_in_nil d _ h, WF_out_nil d _ h]

theorem WF_put (d : dpipe_t) (F R : List Nat) (e : Nat) (h : WF d F R) (he : e ∉ F ++ R) :
    WF (dpipe_put d e) (e :: F) R := by
  obtain ⟨hF, hR, ht, hnd⟩ := h
  have heF : e ∉ F := fun hm => he (List.mem_append_left _ hm)
  have heR : e ∉ R := fun hm => he (List.mem_append_right _ hm)
  refine ⟨⟨rfl, ?_⟩, ?_, ht, ?_⟩
  · show isList (Function.update d.next e d.in_) (Function.update d.next e d.in_ e) F
    rw [Function.update_same]
    exact isList_update_of_not_mem _ _ _ _ _ heF hF
  · exact isList_update_of_not_mem _ _ _ _ _ heR hR
  · simpa using List.nodup_cons.mpr ⟨he, hnd⟩

theorem WF_store (d : dpipe_t) (F R : List Nat) (e : Nat) (h : WF d F R) (he : e ∉ F ++ R) :
    WF (dpipe_store d e) F (R ++ [e]) := by
  obtain ⟨hF, hR, ht, hnd⟩ := h
  have heF : e ∉ F := fun hm => he (List.mem_append_left _ hm)
  have heR : e ∉ R := fun hm => he (List.mem_append_right _ hm)
  have hnd2 : (F ++ (R ++ [e])).Nodup := by
    rw [← List.append_assoc]
    refine List.Nodup.append hnd (List.nodup_singleton e) ?_
    intro x hx hx2
    have : x = e := by simpa using hx2
    exact he (this ▸ hx)
  cases hcase : R.getLast? with
  | none =>
    have hRnil : R = [] := List.getLast?_eq_none_iff.mp hcase
    subst hRnil
    have hout : d.out = none := hR
    have htail : d.out_tail = none := by rw [ht]; rfl
    simp only [dpipe_store, htail]
    refine ⟨?_, ?_, ?_, hnd2⟩
    · exact isList_update_of_not_mem _ _ _ _ _ heF hF
    · exact ⟨rfl, by simp only [Function.update_same]; rfl⟩
    · rfl
  | some t =>
    have htail : d.out_tail = some t := by rw [ht, hcase]
    have htR : t ∈ R := List.mem_of_getLast?_eq_some hcase
    have htF : t ∉ F := fun hm => (List.nodup_append.mp hnd).2.2 hm htR
    simp only [dpipe_store, htail]
    refine ⟨?_, ?_, ?_, hnd2⟩
    · exact isList_update_of_not_mem _ _ _ _ _ heF
        (isList_update_of_not_mem _ _ _ _ _ htF hF)
    · exact isList_snoc d.next e R d.out t hR hcase heR
    · simp

/-! ## Claims -/

/-- C1: `dpipe_get` prefers the free list and otherwise evicts the oldest
ready entry.  On a well-formed pipe with free list `F` and ready list `R`: if
`F = a :: F1`, the call returns `a`, the free list becomes `F1`, `in_count`
drops by one, and the ready list (still `R`), `out`, `out_tail` and
`out_count` are unchanged; if `F` is empty and `R = a :: R1`, the call returns
the ready-list head `a`, the ready list becomes `R1` (same order), and
`out_count` drops by one. -/
theorem dpipe_get_policy (d : dpipe_t) (F R : List Nat) (h : WF d F R) :
    (∀ a F1, F = a :: F1 →
      (dpipe_get d).1 = some a ∧ WF (dpipe_get d).2 F1 R ∧
      (dpipe_get d).2.in_count = d.in_count - 1 ∧
      (dpipe_get d).2.out = d.out ∧ (dpipe_get d).2.out_tail = d.out_tail ∧
      (dpipe_get d).2.out_count = d.out_count) ∧
    (F = [] → ∀ a R1, R = a :: R1 →
      (dpipe_get d).1 = some a ∧ WF (dpipe_get d).2 [] R1 ∧
      (dpipe_get d).2.out_count = d.out_count - 1 ∧
      (dpipe_get d).2.in_count = d.in_count) := by
  constructor
  · intro a F1 hF
    subst hF
    exact dpipe_get_free d F1 R a h
  · intro hF a R1 hR
    subst hF
    subst hR
    exact dpipe_get_evict d R1 a h

/-- Witness for C1: on the pipe with free list `[1]` and ready list `[2, 3]`
the call returns entry 1 and keeps the ready list; on the pipe with no free
entry and ready list `[2, 3]` it returns entry 2 and leaves `[3]`. -/
theorem dpipe_get_policy_witness :
    (WF pipe_1_23 [1] [2, 3] ∧ (dpipe_get pipe_1_23).1 = some 1 ∧
      WF (dpipe_get pipe_1_23).2 [] [2, 3]) ∧
    (WF pipe_0_23 [] [2, 3] ∧ (dpipe_get pipe_0_23).1 = some 2 ∧
      WF (dpipe_get pipe_0_23).2 [] [3]) :=
  ⟨⟨by decide,
      ((dpipe_get_policy pipe_1_23 [1] [2, 3] (by decide)).1 1 [] rfl).1,
      ((dpipe_get_policy pipe_1_23 [1] [2, 3] (by decide)).1 1 [] rfl).2.1⟩,
    ⟨by decide,
      ((dpipe_get_policy pipe_0_23 [] [2, 3] (by decide)).2 rfl 2 [3] rfl).1,
      ((dpipe_get_policy pipe_0_23 [] [2, 3] (by decide)).2 rfl 2 [3] rfl).2.1⟩⟩

theorem WF_store_all (es : List Nat) :
    ∀ (d : dpipe_t) (F R : List Nat), WF d F R → es.Nodup → (∀ e ∈ es, e ∉ F ++ R) →
      WF (store_all d es) F (R ++ es) := by
  induction es with
  | nil => intro d F R h _ _; simpa [store_all] using h
  | cons e es ih =>
    intro d F R h hnd hdisj
    have he : e ∉ F ++ R := hdisj e (List.mem_cons_self e es)
    have h1 := WF_store d F R e h he
    have hnd2 := List.nodup_cons.mp hnd
    have h2 := ih (dpipe_store d e) F (R ++ [e]) h1 hnd2.2 (by
      intro x hx hmem
      rcases List.mem_append.mp hmem with hF | hR
      · exact hdisj x (List.mem_cons_of_mem _ hx) (List.mem_append_left _ hF)
      · rcases List.mem_append.mp hR with hR | hxe
        · exact hdisj x (List.mem_cons_of_mem _ hx) (List.mem_append_right _ hR)
        · have : x = e := by simpa using hxe
          exact hnd2.1 (this ▸ hx))
    simpa [store_all] using h2

theorem consume_with_of_WF (wait : Nat → dpipe_t → dpipe_t) (d : dpipe_t) (F R : List Nat)
    (a : Nat) (c : Consume) (h : WF d F (a :: R)) :
    consume_with wait d c = some (some a, dpipe_take_out d a) := by
  have hout := WF_out_eq d F R a h
  cases c with
  | nowait => simp [consume_with, dpipe_load_nowait_eq_take_out d a hout]
  | load abstime fuel => exact dpipe_load_eq_take_out wait fuel d abstime a hout

theorem consume_all_of_WF (wait : Nat → dpipe_t → dpipe_t) (R : List Nat) :
    ∀ (d : dpipe_t) (F : List Nat) (cs : List Consume), WF d F R → cs.length = R.length →
      ∃ d2, consume_all wait cs d = some (R.map some, d2) ∧ WF d2 F [] := by
  induction R with
  | nil =>
    intro d F cs h hlen
    have : cs = [] := List.length_eq_zero.mp hlen
    subst this
    exact ⟨d, rfl, h⟩
  | cons a R ih =>
    intro d F cs h hlen
    cases cs with
    | nil => simp at hlen
    | cons c cs =>
      have hlen2 : cs.length = R.length := by simpa using hlen
      obtain ⟨d2, h2, hwf⟩ := ih (dpipe_take_out d a) F cs (WF_take_out d F R a h) hlen2
      refine ⟨d2, ?_, hwf⟩
      simp [consume_all, consume_with_of_WF wait d F R a c h, h2]

/-- C2: FIFO delivery.  On a well-formed pipe with ready list `R`, publishing
the distinct caller-held entries `es` (on neither list) in order with
`dpipe_store` and then consuming `|R| + |es|` times, each time by
`dpipe_load_nowait` or by `dpipe_load` (any `abstime`), returns exactly
`R` followed by `es`, in that order; a further `dpipe_load_nowait` returns
NULL. -/
theorem fifo_delivery (wait : Nat → dpipe_t → dpipe_t) (d : dpipe_t) (F R es : List Nat)
    (cs : List Consume) (h : WF d F R) (hes : es.Nodup) (hheld : ∀ e ∈ es, e ∉ F ++ R)
    (hcs : cs.length = R.length + es.length) :
    ∃ d2, consume_all wait cs (store_all d es) = some ((R ++ es).map some, d2) ∧
      (dpipe_load_nowait d2).1 = none := by
  have h1 := WF_store_all es d F R h hes hheld
  obtain ⟨d2, h2, hwf⟩ := consume_all_of_WF wait (R ++ es) (store_all d es) F cs h1
    (by simpa using hcs)
  refine ⟨d2, h2, ?_⟩
  simp [dpipe_load_nowait, WF_out_nil d2 F hwf]

/-- Witness for C2: the ready list is `[2, 3]`, entries 4 and 5 are published,
and four consumes (two non-blocking, one blocking without deadline, one
blocking with a deadline) return 2, 3, 4, 5. -/
theorem fifo_delivery_witness :
    WF pipe_1_23 [1] [2, 3] ∧
    ∃ d2, consume_all (fun _ x => x)
        [Consume.nowait, Consume.load none 0, Consume.nowait,
          Consume.load (some ⟨0, 100000000⟩) 3]
        (store_all pipe_1_23 [4, 5]) = some ([some 2, some 3, some 4, some 5], d2) ∧
      (dpipe_load_nowait d2).1 = none :=
  ⟨by decide,
    fifo_delivery (fun _ x => x) pipe_1_23 [1] [2, 3] [4, 5]
      [Consume.nowait, Consume.load none 0, Consume.nowait,
        Consume.load (some ⟨0, 100000000⟩) 3]
      (by decide) (by decide) (by decide) (by decide)⟩

/-! ## `dpipe_create` -/

theorem dpipe_create_frames_spec (al : Alloc) :
    ∀ (n i : Nat) (d d2 : dpipe_t) (F : List Nat), isList d.next d.in_ F →
      (∀ k, k < n → ∀ x, al.malloc (i + k) = some x → x ∉ F) →
      (∀ k1, k1 < n → ∀ k2, k2 < n → al.malloc (i + k1) = al.malloc (i + k2) → k1 = k2) →
      dpipe_create_frames al n i d = some d2 →
      ∃ F2, isList d2.next d2.in_ F2 ∧ F2.length = F.length + n ∧
        (∀ x, x ∈ F2 ↔ x ∈ F ∨ ∃ k, k < n ∧ al.malloc (i + k) = some x) ∧
        d2.in_count = d.in_count + n ∧ d2.out = d.out ∧ d2.out_tail = d.out_tail ∧
        d2.out_count = d.out_count := by
  intro n
  induction n with
  | zero =>
    intro i d d2 F hF _ _ hrun
    have hd : d = d2 := by simpa [dpipe_create_frames] using hrun
    subst hd
    exact ⟨F, hF, by simp, by simp, by simp, rfl, rfl, rfl⟩
  | succ n ih =>
    intro i d d2 F hF hfresh hinj hrun
    cases hm : al.malloc i with
    | none => simp [dpipe_create_frames, hm] at hrun
    | some b =>
      cases hg : al.ga_malloc i with
      | false => simp [dpipe_create_frames, hm, hg] at hrun
      | true =>
        simp only [dpipe_create_frames, hm, hg, if_true] at hrun
        have hbF : b ∉ F := hfresh 0 (Nat.succ_pos n) b (by simpa using hm)
        have hF1 : isList (Function.update d.next b d.in_) (some b) (b :: F) := by
          refine ⟨rfl, ?_⟩
          rw [Function.update_same]
          exact isList_update_of_not_mem _ _ _ _ _ hbF hF
        have hidx : ∀ k, i + 1 + k = i + (k + 1) := fun k => by omega
        obtain ⟨F2, h1, h2, h3, h4, h5, h6, h7⟩ := ih (i + 1) _ d2 (b :: F) hF1
          (by
            intro k hk x hx hmem
            rw [hidx] at hx
            rcases List.mem_cons.mp hmem with hxb | hxF
            · subst hxb
              have h0 : al.malloc (i + (k + 1)) = al.malloc (i + 0) := by
                rw [hx]; simpa using hm.symm
              have := hinj (k + 1) (Nat.succ_lt_succ hk) 0 (Nat.succ_pos n) h0
              omega
            · exact hfresh (k + 1) (Nat.succ_lt_succ hk) x hx hxF)
          (by
            intro k1 hk1 k2 hk2 he
            rw [hidx, hidx] at he
            have := hinj (k1 + 1) (Nat.succ_lt_succ hk1) (k2 + 1) (Nat.succ_lt_succ hk2) he
            omega)
          hrun
        refine ⟨F2, h1, ?_, ?_, ?_, h5, h6, h7⟩
        · rw [h2]; simp; omega
        · intro x
          rw [h3 x]
          constructor
          · rintro (hx | ⟨k, hk, hx⟩)
            · rcases List.mem_cons.mp hx with hxb | hxF
              · exact Or.inr ⟨0, Nat.succ_pos n, by simpa [hxb] using hm⟩
              · exact Or.inl hxF
            · exact Or.inr ⟨k + 1, Nat.succ_lt_succ hk, by rw [← hidx]; exact hx⟩
          · rintro (hx | ⟨k, hk, hx⟩)
            · exact Or.inl (List.mem_cons_of_mem _ hx)
            · cases k with
              | zero =>
                have : x = b := by
                  have h0 : al.malloc i = some x := by simpa using hx
                  rw [hm] at h0
                  exact (Option.some.inj h0).symm
                exact Or.inl (by simp [this])
              | succ k =>
                exact Or.inr ⟨k, Nat.lt_of_succ_lt_succ hk, by rw [hidx]; exact hx⟩
        · rw [h4]; push_cast; show d.in_count + 1 + (n : Int) = d.in_count + ((n : Int) + 1); omega

theorem dpipe_create_frames_total (al : Alloc) :
    ∀ (n i : Nat) (d : dpipe_t),
      (∀ k, k < n → al.malloc (i + k) ≠ none ∧ al.ga_malloc (i + k) = true) →
      ∃ d2, dpipe_create_frames al n i d = some d2 := by
  intro n
  induction n with
  | zero => intro i d _; exact ⟨d, rfl⟩
  | succ n ih =>
    intro i d hok
    obtain ⟨hm, hg⟩ := hok 0 (Nat.succ_pos n)
    rw [Nat.add_zero] at hm hg
    obtain ⟨b, hb⟩ := Option.ne_none_iff_exists'.mp hm
    have hrest : ∀ k, k < n → al.malloc (i + 1 + k) ≠ none ∧ al.ga_malloc (i + 1 + k) = true := by
      intro k hk
      have := hok (k + 1) (Nat.succ_lt_succ hk)
      have hidx : i + 1 + k = i + (k + 1) := by omega
      rw [hidx]; exact this
    obtain ⟨d2, h2⟩ := ih (i + 1)
      { d with
        next := Function.update d.next b d.in_
        in_ := some b
        in_count := d.in_count + 1 } hrest
    exact ⟨d2, by simp only [dpipe_create_frames, hb, hg, if_true]; exact h2⟩

/-- What a successful `dpipe_create` returned and left behind. -/
theorem dpipe_create_success (dpipemap : String → Option Nat) (al : Alloc) (id : Int)
    (name : Option String) (nframe maxframesize : Int) (p : Nat) (d : dpipe_t)
    (h : (dpipe_create dpipemap al id name nframe maxframesize).1 = some (p, d))
    (hfresh : ∀ i, i < nframe.toNat → ∀ j, j < nframe.toNat →
      al.malloc i = al.malloc j → i = j) :
    1 ≤ nframe ∧ p = al.new_dpipe ∧
      ∃ F, isList d.next d.in_ F ∧ (F.length : Int) = nframe ∧
        (∀ x, x ∈ F ↔ ∃ k, k < nframe.toNat ∧ al.malloc k = some x) ∧
        d.in_count = nframe ∧ d.out = none ∧ d.out_tail = none ∧ d.out_count = 0 := by
  cases name with
  | none => simp [dpipe_create] at h
  | some nm =>
    by_cases hs : id < 0 ∨ nframe ≤ 0 ∨ maxframesize ≤ 0
    · simp [dpipe_create, hs] at h
    · by_cases hl : dpipe_lookup dpipemap nm ≠ none
      · simp [dpipe_create, hs, hl] at h
      · cases hsd : al.strdup_ok with
        | false => simp [dpipe_create, hs, hl, hsd] at h
        | true =>
          simp only [dpipe_create, hs, hl, hsd, if_true, if_false] at h
          have hn : 1 ≤ nframe := by
            have : ¬ nframe ≤ 0 := fun hh => hs (Or.inr (Or.inl hh))
            omega
          generalize hfr : dpipe_create_frames al nframe.toNat 0 _ = res at h
          cases res with
          | none => simp at h
          | some d2 =>
            have hpd : al.new_dpipe = p ∧ d2 = d := by simpa using h
            obtain ⟨hp, hd⟩ := hpd
            subst hd
            obtain ⟨F, h1, h2, h3, h4, h5, h6, h7⟩ :=
              dpipe_create_frames_spec al nframe.toNat 0
                { channel_id := id, name := some nm, in_ := none, out := none,
                  out_tail := none, in_count := 0, out_count := 0, next := al.mem }
                d2 [] rfl
                (by intro k _ x _; simp)
                (by
                  intro k1 hk1 k2 hk2 he
                  rw [Nat.zero_add, Nat.zero_add] at he
                  exact hfresh k1 hk1 k2 hk2 he)
                hfr
            refine ⟨hn, hp.symm, F, h1, ?_, ?_, ?_, h5, h6, h7⟩
            · rw [h2]; simp; omega
            · intro x
              rw [h3 x]
              simp
            · rw [h4]; simp; omega

/-- C8: `dpipe_create` rejects configuration errors atomically: if `name` is
already registered, or `nframe <= 0`, or `maxframesize <= 0`, the call returns
NULL and the registry is unchanged. -/
theorem dpipe_create_rejects (dpipemap : String → Option Nat) (al : Alloc) (id : Int)
    (name : Option String) (nframe maxframesize : Int)
    (h : (∃ nm, name = some nm ∧ dpipe_lookup dpipemap nm ≠ none) ∨
      nframe ≤ 0 ∨ maxframesize ≤ 0) :
    dpipe_create dpipemap al id name nframe maxframesize = (none, dpipemap) := by
  cases name with
  | none => rfl
  | some nm =>
    by_cases hs : id < 0 ∨ nframe ≤ 0 ∨ maxframesize ≤ 0
    · simp [dpipe_create, hs]
    · rcases h with ⟨nm2, hnm, hreg⟩ | hn | hm
      · have : nm = nm2 := Option.some.inj hnm
        subst this
        simp [dpipe_create, hs, hreg]
      · exact absurd (Or.inr (Or.inl hn)) hs
      · exact absurd (Or.inr (Or.inr hm)) hs

/-- Witness for C8: creating `video-0` again in a registry that already has
it, creating with `nframe = 0`, and creating with `maxframesize = -1`. -/
theorem dpipe_create_rejects_witness :
    dpipe_create registry_video0 alloc_ok 0 (some "video-0") 8 4096
      = (none, registry_video0) ∧
    dpipe_create registry_video0 alloc_ok 0 (some "video-1") 0 4096
      = (none, registry_video0) ∧
    dpipe_create registry_video0 alloc_ok 0 (some "video-1") 8 (-1)
      = (none, registry_video0) :=
  ⟨dpipe_create_rejects registry_video0 alloc_ok 0 (some "video-0") 8 4096
      (Or.inl ⟨"video-0", rfl, by decide⟩),
    dpipe_create_rejects registry_video0 alloc_ok 0 (some "video-1") 0 4096
      (Or.inr (Or.inl (by decide))),
    dpipe_create_rejects registry_video0 alloc_ok 0 (some "video-1") 8 (-1)
      (Or.inr (Or.inr (by decide)))⟩

/-- C9: success postcondition of `dpipe_create`.  For `id >= 0`, a non-null
name that is not registered, `nframe >= 1`, `maxframesize >= 1` and every
allocation succeeding (with `malloc` handing out pairwise distinct buffers),
the call returns a pipe whose free list holds exactly `nframe` distinct
entries with `in_count = nframe`, whose ready list is empty with
`out_count = 0` and `out_tail = NULL`; afterwards `dpipe_lookup name` returns
that pipe and the lookup of every other name is unchanged. -/
theorem dpipe_create_postcondition (dpipemap : String → Option Nat) (al : Alloc) (id : Int)
    (nm : String) (nframe maxframesize : Int)
    (hid : 0 ≤ id) (hreg : dpipe_lookup dpipemap nm = none)
    (hn : 1 ≤ nframe) (hm : 1 ≤ maxframesize) (hstr : al.strdup_ok = true)
    (halloc : ∀ k, k < nframe.toNat → al.malloc k ≠ none ∧ al.ga_malloc k = true)
    (hfresh : ∀ i, i < nframe.toNat → ∀ j, j < nframe.toNat →
      al.malloc i = al.malloc j → i = j) :
    ∃ d F,
      (dpipe_create dpipemap al id (some nm) nframe maxframesize).1
        = some (al.new_dpipe, d) ∧
      isList d.next d.in_ F ∧ (F.length : Int) = nframe ∧ F.Nodup ∧ d.in_count = nframe ∧
      d.out = none ∧ d.out_count = 0 ∧ d.out_tail = none ∧
      dpipe_lookup (dpipe_create dpipemap al id (some nm) nframe maxframesize).2 nm
        = some al.new_dpipe ∧
      ∀ other, other ≠ nm →
        dpipe_lookup (dpipe_create dpipemap al id (some nm) nframe maxframesize).2 other
          = dpipe_lookup dpipemap other := by
  have hs : ¬ (id < 0 ∨ nframe ≤ 0 ∨ maxframesize ≤ 0) := by omega
  have hl : ¬ (dpipe_lookup dpipemap nm ≠ none) := fun h => h hreg
  obtain ⟨d, hd⟩ := dpipe_create_frames_total al nframe.toNat 0
    { channel_id := id, name := some nm, in_ := none, out := none,
      out_tail := none, in_count := 0, out_count := 0, next := al.mem }
    (by intro k hk; rw [Nat.zero_add]; exact halloc k hk)
  have hrun : dpipe_create dpipemap al id (some nm) nframe maxframesize
      = (some (al.new_dpipe, d), Function.update dpipemap nm (some al.new_dpipe)) := by
    simp only [dpipe_create, hs, hl, hstr, if_true, if_false, hd]
  obtain ⟨_, _, F, h1, h2, _, h4, h5, h6, h7⟩ :=
    dpipe_create_success dpipemap al id (some nm) nframe maxframesize al.new_dpipe d
      (by rw [hrun]) hfresh
  refine ⟨d, F, by rw [hrun], h1, h2, isList_nodup _ _ _ h1, h4, h5, h7, h6, ?_, ?_⟩
  · rw [hrun]; simp [dpipe_lookup]
  · intro other hne
    rw [hrun]
    simp [dpipe_lookup, Function.update_noteq hne]

/-- Witness for C9: creating `video-1` with three frames of 4096 bytes in a
registry that holds only `video-0`. -/
theorem dpipe_create_postcondition_witness :
    ∃ d F,
      (dpipe_create registry_video0 alloc_ok 0 (some "video-1") 3 4096).1
        = some (9, d) ∧
      isList d.next d.in_ F ∧ (F.length : Int) = 3 ∧ F.Nodup ∧ d.in_count = 3 ∧
      d.out = none ∧ d.out_count = 0 ∧ d.out_tail = none ∧
      dpipe_lookup (dpipe_create registry_video0 alloc_ok 0 (some "video-1") 3 4096).2
        "video-1" = some 9 ∧
      ∀ other, other ≠ "video-1" →
        dpipe_lookup (dpipe_create registry_video0 alloc_ok 0 (some "video-1") 3 4096).2
          other = dpipe_lookup registry_video0 other :=
  dpipe_create_postcondition registry_video0 alloc_ok 0 "video-1" 3 4096
    (by decide) (by decide) (by decide) (by decide) rfl
    (by intro k _; exact ⟨by simp [alloc_ok], rfl⟩)
    (by intro i _ j _ h; simpa [alloc_ok] using h)

/-! ## Invariants of the reachable states -/

theorem Sys.receive_some (s : Sys) (a : Nat) (d : dpipe_t) (consumed : Bool) :
    s.receive (some a, d) consumed =
      { s with
        d := d
        held := a :: s.held
        log := if consumed then s.log ++ [s.tag a] else s.log } := rfl

theorem Sys.receive_none (s : Sys) (d : dpipe_t) (consumed : Bool) :
    s.receive (none, d) consumed = { s with d := d } := rfl

/-- The caller receives the head of the ready list (by a consume, or by the
eviction of `dpipe_get`). -/
theorem Inv_receive_take_out (P : Int) (s : Sys) (F R : List Nat) (a : Nat) (consumed : Bool)
    (h : Inv P s F (a :: R)) (ht : TagInv s (a :: R)) :
    Inv P (s.receive (some a, dpipe_take_out s.d a) consumed) F R ∧
      TagInv (s.receive (some a, dpipe_take_out s.d a) consumed) R := by
  obtain ⟨hwf, hnd, hin, hout, hsum⟩ := h
  rw [Sys.receive_some]
  have hp : (F ++ a :: R ++ s.held).Perm (F ++ R ++ a :: s.held) := by
    simp only [List.append_assoc, List.cons_append]
    exact List.Perm.append_left F List.perm_middle.symm
  refine ⟨⟨WF_take_out s.d F R a hwf, hp.nodup_iff.mp hnd, hin, ?_, ?_⟩, ?_⟩
  · show s.d.out_count - 1 = (R.length : Int)
    rw [hout]; simp
  · simp only [List.length_cons] at hsum ⊢
    push_cast at hsum ⊢
    omega
  · obtain ⟨hpw, hb⟩ := ht
    cases consumed with
    | true =>
      have e : (s.log ++ [s.tag a]) ++ R.map s.tag = s.log ++ (a :: R).map s.tag := by simp
      exact ⟨by simpa [TagInv] using e ▸ hpw, by
        intro x hx
        apply hb x
        simpa using hx⟩
    | false =>
      have hsub : (s.log ++ R.map s.tag).Sublist (s.log ++ (a :: R).map s.tag) := by
        apply List.Sublist.append_left
        simp
      exact ⟨hpw.sublist hsub, fun x hx => hb x (hsub.subset hx)⟩

theorem Inv_acquire_free (P : Int) (s : Sys) (F1 R : List Nat) (a : Nat)
    (h : Inv P s (a :: F1) R) (ht : TagInv s R) :
    Inv P (step s Op.acquire) F1 R ∧ TagInv (step s Op.acquire) R := by
  obtain ⟨hwf, hnd, hin, hout, hsum⟩ := h
  obtain ⟨h1, h2, h3, _, _, h6⟩ := dpipe_get_free s.d F1 R a hwf
  have hget : dpipe_get s.d = (some a, (dpipe_get s.d).2) := by
    rw [← h1]
  constructor
  · show Inv P (s.receive (dpipe_get s.d) false) F1 R
    rw [hget, Sys.receive_some]
    have hp : (a :: (F1 ++ R ++ s.held)).Perm (F1 ++ R ++ a :: s.held) :=
      List.perm_middle.symm
    refine ⟨h2, hp.nodup_iff.mp hnd, ?_, ?_, ?_⟩
    · show (dpipe_get s.d).2.in_count = (F1.length : Int)
      rw [h3, hin]; simp
    · show (dpipe_get s.d).2.out_count = (R.length : Int)
      rw [h6, hout]
    · simp only [List.length_cons] at hsum ⊢
      push_cast at hsum ⊢
      omega
  · show TagInv (s.receive (dpipe_get s.d) false) R
    rw [hget, Sys.receive_some]
    exact ht

theorem Inv_acquire (P : Int) (s : Sys) (F R : List Nat)
    (h : Inv P s F R) (ht : TagInv s R) :
    ∃ F2 R2, Inv P (step s Op.acquire) F2 R2 ∧ TagInv (step s Op.acquire) R2 := by
  cases F with
  | cons a F1 => exact ⟨F1, R, Inv_acquire_free P s F1 R a h ht⟩
  | nil =>
    cases R with
    | cons a R1 =>
      have hwf := h.1
      have hget := dpipe_get_eq_take_out s.d a (WF_in_nil s.d _ hwf) (WF_out_eq s.d _ _ a hwf)
      refine ⟨[], R1, ?_⟩
      show Inv P (s.receive (dpipe_get s.d) false) [] R1 ∧
        TagInv (s.receive (dpipe_get s.d) false) R1
      rw [hget]
      exact Inv_receive_take_out P s [] R1 a false h ht
    | nil =>
      refine ⟨[], [], ?_⟩
      show Inv P (s.receive (dpipe_get s.d) false) [] [] ∧
        TagInv (s.receive (dpipe_get s.d) false) []
      rw [dpipe_get_none s.d h.1, Sys.receive_none]
      exact ⟨h, ht⟩

theorem Inv_consume (P : Int) (s : Sys) (F R : List Nat)
    (h : Inv P s F R) (ht : TagInv s R) :
    ∃ F2 R2, Inv P (step s Op.consume) F2 R2 ∧ TagInv (step s Op.consume) R2 := by
  cases R with
  | cons a R1 =>
    refine ⟨F, R1, ?_⟩
    show Inv P (s.receive (dpipe_load_nowait s.d) true) F R1 ∧
      TagInv (s.receive (dpipe_load_nowait s.d) true) R1
    rw [dpipe_load_nowait_eq_take_out s.d a (WF_out_eq s.d _ _ a h.1)]
    exact Inv_receive_take_out P s F R1 a true h ht
  | nil =>
    refine ⟨F, [], ?_⟩
    show Inv P (s.receive (dpipe_load_nowait s.d) true) F [] ∧
      TagInv (s.receive (dpipe_load_nowait s.d) true) []
    have : dpipe_load_nowait s.d = (none, s.d) := by
      simp [dpipe_load_nowait, WF_out_nil s.d F h.1]
    rw [this, Sys.receive_none]
    exact ⟨h, ht⟩

theorem Inv_consumeBlocking (P : Int) (s : Sys) (F R : List Nat) (abstime : Option timespec)
    (h : Inv P s F R) (ht : TagInv s R) :
    ∃ F2 R2, Inv P (step s (Op.consumeBlocking abstime)) F2 R2 ∧
      TagInv (step s (Op.consumeBlocking abstime)) R2 := by
  cases R with
  | cons a R1 =>
    refine ⟨F, R1, ?_⟩
    simp only [step, dpipe_load_eq_take_out (fun _ d => d) 0 s.d abstime a
      (WF_out_eq s.d _ _ a h.1)]
    exact Inv_receive_take_out P s F R1 a true h ht
  | nil =>
    refine ⟨F, [], ?_⟩
    have : dpipe_load (fun _ d => d) 1 s.d abstime = none := by
      simp [dpipe_load, dpipe_load_loop, WF_out_nil s.d F h.1]
    simp only [step, this]
    exact ⟨h, ht⟩

theorem held_not_on_lists (F R held : List Nat) (e : Nat)
    (hnd : (F ++ R ++ held).Nodup) (he : e ∈ held) : e ∉ F ++ R :=
  fun hm => (List.nodup_append.mp hnd).2.2 hm he

theorem Inv_release (P : Int) (s : Sys) (F R : List Nat) (e : Nat)
    (h : Inv P s F R) (ht : TagInv s R) :
    ∃ F2 R2, Inv P (step s (Op.release e)) F2 R2 ∧ TagInv (step s (Op.release e)) R2 := by
  by_cases he : e ∈ s.held
  · obtain ⟨hwf, hnd, hin, hout, hsum⟩ := h
    have hfree := held_not_on_lists F R s.held e hnd he
    refine ⟨e :: F, R, ?_, ?_⟩
    · simp only [step, he, if_true]
      have hp : (F ++ R ++ s.held).Perm (e :: (F ++ R ++ s.held.erase e)) :=
        (List.Perm.append_left (F ++ R) (List.perm_cons_erase he)).trans List.perm_middle
      refine ⟨WF_put s.d F R e hwf hfree, hp.nodup_iff.mp hnd, ?_, hout, ?_⟩
      · show s.d.in_count + 1 = ((e :: F).length : Int)
        rw [hin]; simp
      · have hlen := List.length_erase_of_mem he
        have hpos : 0 < s.held.length := List.length_pos_of_mem he
        show (((e :: F).length : Nat) : Int) + R.length + ((s.held.erase e).length : Nat) = P
        rw [hlen]
        simp only [List.length_cons]
        push_cast at hsum ⊢
        omega
    · simp only [step, he, if_true]
      exact ht
  · refine ⟨F, R, ?_⟩
    simp only [step, he, if_false]
    exact ⟨h, ht⟩

theorem Inv_publish (P : Int) (s : Sys) (F R : List Nat) (e : Nat)
    (h : Inv P s F R) (ht : TagInv s R) :
    ∃ F2 R2, Inv P (step s (Op.publish e)) F2 R2 ∧ TagInv (step s (Op.publish e)) R2 := by
  by_cases he : e ∈ s.held
  · obtain ⟨hwf, hnd, hin, hout, hsum⟩ := h
    have hfree := held_not_on_lists F R s.held e hnd he
    have heR : e ∉ R := fun hm => hfree (List.mem_append_right _ hm)
    refine ⟨F, R ++ [e], ?_, ?_⟩
    · simp only [step, he, if_true]
      have hp : (F ++ R ++ s.held).Perm (F ++ (R ++ [e]) ++ s.held.erase e) := by
        have e2 : F ++ (R ++ [e]) ++ s.held.erase e = F ++ R ++ e :: s.held.erase e := by
          simp
        rw [e2]
        exact List.Perm.append_left (F ++ R) (List.perm_cons_erase he)
      refine ⟨WF_store s.d F R e hwf hfree, hp.nodup_iff.mp hnd, ?_, ?_, ?_⟩
      · show (dpipe_store s.d e).in_count = (F.length : Int)
        rw [← hin]
        cases hc : s.d.out_tail <;> simp [dpipe_store, hc]
      · show (dpipe_store s.d e).out_count = ((R ++ [e]).length : Int)
        have : (dpipe_store s.d e).out_count = s.d.out_count + 1 := by
          cases hc : s.d.out_tail <;> simp [dpipe_store, hc]
        rw [this, hout]; simp
      · have hlen := List.length_erase_of_mem he
        have hpos : 0 < s.held.length := List.length_pos_of_mem he
        show ((F.length : Nat) : Int) + ((R ++ [e]).length : Nat)
          + ((s.held.erase e).length : Nat) = P
        rw [hlen]
        simp only [List.length_append, List.length_singleton]
        push_cast at hsum ⊢
        omega
    · simp only [step, he, if_true]
      obtain ⟨hpw, hb⟩ := ht
      have hmap : (R ++ [e]).map (Function.update s.tag e (s.seq + 1))
          = R.map s.tag ++ [s.seq + 1] := by
        rw [List.map_append]
        congr 1
        · apply List.map_congr_left
          intro x hx
          have : x ≠ e := fun hxe => heR (hxe ▸ hx)
          rw [Function.update_noteq this]
        · simp
      show (s.log ++ (R ++ [e]).map (Function.update s.tag e (s.seq + 1))).Pairwise
          (fun x y => x < y) ∧
        ∀ x ∈ s.log ++ (R ++ [e]).map (Function.update s.tag e (s.seq + 1)),
          1 ≤ x ∧ x ≤ s.seq + 1
      rw [hmap, ← List.append_assoc]
      constructor
      · rw [List.pairwise_append]
        refine ⟨hpw, List.pairwise_singleton _ _, ?_⟩
        intro x hx y hy
        have hy2 : y = s.seq + 1 := by simpa using hy
        have := (hb x hx).2
        omega
      · intro x hx
        rcases List.mem_append.mp hx with hx1 | hx2
        · have := hb x hx1
          omega
        · have hx3 : x = s.seq + 1 := by simpa using hx2
          omega
  · refine ⟨F, R, ?_⟩
    simp only [step, he, if_false]
    exact ⟨h, ht⟩

theorem Inv_step (P : Int) (s : Sys) (op : Op) :
    (∃ F R, Inv P s F R ∧ TagInv s R) →
      ∃ F2 R2, Inv P (step s op) F2 R2 ∧ TagInv (step s op) R2 := by
  rintro ⟨F, R, h, ht⟩
  cases op with
  | acquire => exact Inv_acquire P s F R h ht
  | release e => exact Inv_release P s F R e h ht
  | publish e => exact Inv_publish P s F R e h ht
  | consume => exact Inv_consume P s F R h ht
  | consumeBlocking abstime => exact Inv_consumeBlocking P s F R abstime h ht

theorem Inv_run (P : Int) (ops : List Op) :
    ∀ s : Sys, (∃ F R, Inv P s F R ∧ TagInv s R) →
      ∃ F2 R2, Inv P (run s ops) F2 R2 ∧ TagInv (run s ops) R2 := by
  induction ops with
  | nil => intro s h; exact h
  | cons op ops ih =>
    intro s h
    exact ih (step s op) (Inv_step P s op h)

/-- The state right after a successful `dpipe_create` satisfies the
invariants, with every entry on the free list. -/
theorem Inv_init (dpipemap : String → Option Nat) (al : Alloc) (id : Int)
    (name : Option String) (nframe maxframesize : Int) (p : Nat) (d : dpipe_t)
    (hc : (dpipe_create dpipemap al id name nframe maxframesize).1 = some (p, d))
    (hfresh : ∀ i, i < nframe.toNat → ∀ j, j < nframe.toNat →
      al.malloc i = al.malloc j → i = j) :
    ∃ F, Inv nframe (Sys.init d) F [] ∧ TagInv (Sys.init d) [] := by
  obtain ⟨_, _, F, h1, h2, _, h4, h5, h6, h7⟩ :=
    dpipe_create_success dpipemap al id name nframe maxframesize p d hc hfresh
  refine ⟨F, ⟨⟨h1, h5, h6, ?_⟩, ?_, ?_, ?_, ?_⟩, ?_⟩
  · simpa using isList_nodup _ _ _ h1
  · simpa [Sys.init] using isList_nodup _ _ _ h1
  · show d.in_count = (F.length : Int)
    rw [h4, h2]
  · show d.out_count = (([] : List Nat).length : Int)
    rw [h7]; rfl
  · simp [Sys.init, h2]
  · exact ⟨by simp [Sys.init], by simp [Sys.init]⟩

/-- Every state reached from a successful `dpipe_create` satisfies the
invariants. -/
theorem Inv_reachable (dpipemap : String → Option Nat) (al : Alloc) (id : Int)
    (name : Option String) (nframe maxframesize : Int) (p : Nat) (d : dpipe_t)
    (hc : (dpipe_create dpipemap al id name nframe maxframesize).1 = some (p, d))
    (hfresh : ∀ i, i < nframe.toNat → ∀ j, j < nframe.toNat →
      al.malloc i = al.malloc j → i = j)
    (ops : List Op) :
    ∃ F R, Inv nframe (run (Sys.init d) ops) F R ∧ TagInv (run (Sys.init d) ops) R := by
  obtain ⟨F, h⟩ := Inv_init dpipemap al id name nframe maxframesize p d hc hfresh
  exact Inv_run nframe ops _ ⟨F, [], h⟩

theorem alloc_ok_fresh (n : Nat) :
    ∀ i, i < n → ∀ j, j < n → alloc_ok.malloc i = alloc_ok.malloc j → i = j := by
  intro i _ j _ h
  simpa [alloc_ok] using h

theorem create_pipe_new3 :
    (dpipe_create registry_video0 alloc_ok 0 (some "video-1") 3 4096).1
      = some (9, pipe_new3) := by
  rfl

theorem create_pipe_new1 :
    (dpipe_create registry_video0 alloc_ok 0 (some "video-1") 1 4096).1
      = some (9, pipe_new1) := by
  rfl

/-- C3: pool conservation.  In every state reached from a successful
`dpipe_create` with `nframe` entries by acquire, publish, consume (blocking
or not) and release calls obeying ownership, `in_count` is the length of the
free list, `out_count` is the length of the ready list, and
`in_count + out_count + (entries held by callers) = nframe`. -/
theorem pool_conservation (dpipemap : String → Option Nat) (al : Alloc) (id : Int)
    (name : Option String) (nframe maxframesize : Int) (p : Nat) (d : dpipe_t)
    (hc : (dpipe_create dpipemap al id name nframe maxframesize).1 = some (p, d))
    (hfresh : ∀ i, i < nframe.toNat → ∀ j, j < nframe.toNat →
      al.malloc i = al.malloc j → i = j)
    (ops : List Op) :
    ∃ F R, isList (run (Sys.init d) ops).d.next (run (Sys.init d) ops).d.in_ F ∧
      isList (run (Sys.init d) ops).d.next (run (Sys.init d) ops).d.out R ∧
      (run (Sys.init d) ops).d.in_count = F.length ∧
      (run (Sys.init d) ops).d.out_count = R.length ∧
      (run (Sys.init d) ops).d.in_count + (run (Sys.init d) ops).d.out_count
        + (run (Sys.init d) ops).held.length = nframe := by
  obtain ⟨F, R, ⟨hwf, _, hin, hout, hsum⟩, _⟩ :=
    Inv_reachable dpipemap al id name nframe maxframesize p d hc hfresh ops
  exact ⟨F, R, hwf.1, hwf.2.1, hin, hout, by rw [hin, hout]; exact hsum⟩

/-- Witness for C3: the pool of three entries created for `video-1`, after
the calls of `ops_example`. -/
theorem pool_conservation_witness :
    (dpipe_create registry_video0 alloc_ok 0 (some "video-1") 3 4096).1
      = some (9, pipe_new3) ∧
    ∃ F R, isList (run (Sys.init pipe_new3) ops_example).d.next
        (run (Sys.init pipe_new3) ops_example).d.in_ F ∧
      isList (run (Sys.init pipe_new3) ops_example).d.next
        (run (Sys.init pipe_new3) ops_example).d.out R ∧
      (run (Sys.init pipe_new3) ops_example).d.in_count = F.length ∧
      (run (Sys.init pipe_new3) ops_example).d.out_count = R.length ∧
      (run (Sys.init pipe_new3) ops_example).d.in_count
        + (run (Sys.init pipe_new3) ops_example).d.out_count
        + (run (Sys.init pipe_new3) ops_example).held.length = 3 :=
  ⟨create_pipe_new3,
    pool_conservation registry_video0 alloc_ok 0 (some "video-1") 3 4096 9 pipe_new3
      create_pipe_new3 (alloc_ok_fresh _) ops_example⟩

theorem sublist_range_of_increasing (l : List Nat) (n : Nat)
    (hpw : l.Pairwise (fun x y => x < y)) (hb : ∀ x ∈ l, 1 ≤ x ∧ x ≤ n) :
    l.Sublist (List.range' 1 n) := by
  have hsub : l ⊆ List.range' 1 n := by
    intro x hx
    have := hb x hx
    rw [List.mem_range'_1]
    omega
  have hnd : l.Nodup := hpw.imp (fun h => Nat.ne_of_lt h)
  have hsorted : (List.range' 1 n).Sorted (fun x y => x < y) := List.pairwise_lt_range' 1 n
  exact List.sublist_of_subperm_of_sorted (hnd.subperm hsub) hpw hsorted

/-- C4: eviction never reorders frames.  Each published frame is tagged with
its publish sequence number (`1, 2, ..., seq`).  In every state reached from a
successful `dpipe_create` by acquire, publish, consume and release calls
obeying ownership, the tags returned by the consume calls so far (`log`) are
strictly increasing and form a subsequence of `1, ..., seq`. -/
theorem consume_order (dpipemap : String → Option Nat) (al : Alloc) (id : Int)
    (name : Option String) (nframe maxframesize : Int) (p : Nat) (d : dpipe_t)
    (hc : (dpipe_create dpipemap al id name nframe maxframesize).1 = some (p, d))
    (hfresh : ∀ i, i < nframe.toNat → ∀ j, j < nframe.toNat →
      al.malloc i = al.malloc j → i = j)
    (ops : List Op) :
    (run (Sys.init d) ops).log.Pairwise (fun x y => x < y) ∧
      (run (Sys.init d) ops).log.Sublist (List.range' 1 (run (Sys.init d) ops).seq) := by
  obtain ⟨F, R, _, hpw, hb⟩ :=
    Inv_reachable dpipemap al id name nframe maxframesize p d hc hfresh ops
  have hpw2 : (run (Sys.init d) ops).log.Pairwise (fun x y => x < y) :=
    (List.pairwise_append.mp hpw).1
  exact ⟨hpw2, sublist_range_of_increasing _ _ hpw2
    (fun x hx => hb x (List.mem_append_left _ hx))⟩

/-- Witness for C4: in `ops_example` four frames are published, frame 2 is
evicted by an acquire, and the consumer sees the tags 1, 3, 4. -/
theorem consume_order_witness :
    (dpipe_create registry_video0 alloc_ok 0 (some "video-1") 3 4096).1
      = some (9, pipe_new3) ∧
    (run (Sys.init pipe_new3) ops_example).log = [1, 3, 4] ∧
    (run (Sys.init pipe_new3) ops_example).seq = 4 ∧
    (run (Sys.init pipe_new3) ops_example).log.Pairwise (fun x y => x < y) ∧
    (run (Sys.init pipe_new3) ops_example).log.Sublist
      (List.range' 1 (run (Sys.init pipe_new3) ops_example).seq) :=
  ⟨create_pipe_new3, by decide, by decide,
    consume_order registry_video0 alloc_ok 0 (some "video-1") 3 4096 9 pipe_new3
      create_pipe_new3 (alloc_ok_fresh _) ops_example⟩

/-- Counterexample for C5: on the pool of one entry created for `video-1`,
after a single acquire (a reachable state) the next `dpipe_get` returns
NULL. -/
theorem acquire_returns_null_when_all_held :
    (dpipe_create registry_video0 alloc_ok 0 (some "video-1") 1 4096).1
      = some (9, pipe_new1) ∧
    (dpipe_get (run (Sys.init pipe_new1) [Op.acquire]).d).1 = none :=
  ⟨create_pipe_new1, by decide⟩

/-- C5 (amended): in every state reached from a successful `dpipe_create`
(so `nframe >= 1`) by acquire, publish, consume and release calls obeying
ownership, `dpipe_get` returns an entry exactly when the callers hold fewer
than `nframe` entries, that is, when at least one entry is on the free list or
on the ready list. -/
theorem acquire_succeeds_unless_all_held (dpipemap : String → Option Nat) (al : Alloc)
    (id : Int) (name : Option String) (nframe maxframesize : Int) (p : Nat) (d : dpipe_t)
    (hc : (dpipe_create dpipemap al id name nframe maxframesize).1 = some (p, d))
    (hfresh : ∀ i, i < nframe.toNat → ∀ j, j < nframe.toNat →
      al.malloc i = al.malloc j → i = j)
    (ops : List Op) :
    1 ≤ nframe ∧
    ((dpipe_get (run (Sys.init d) ops).d).1 ≠ none ↔
      ((run (Sys.init d) ops).held.length : Int) < nframe) := by
  obtain ⟨hn, _⟩ := dpipe_create_success dpipemap al id name nframe maxframesize p d hc hfresh
  obtain ⟨F, R, ⟨hwf, _, _, _, hsum⟩, _⟩ :=
    Inv_reachable dpipemap al id name nframe maxframesize p d hc hfresh ops
  refine ⟨hn, ?_⟩
  cases F with
  | cons a F1 =>
    rw [(dpipe_get_free _ F1 R a hwf).1]
    simp only [List.length_cons] at hsum
    push_cast at hsum
    constructor
    · intro _; omega
    · intro _; simp
  | nil =>
    cases R with
    | cons a R1 =>
      rw [(dpipe_get_evict _ R1 a hwf).1]
      simp only [List.length_cons, List.length_nil] at hsum
      push_cast at hsum
      constructor
      · intro _; omega
      · intro _; simp
    | nil =>
      rw [dpipe_get_none _ hwf]
      simp only [List.length_nil] at hsum
      push_cast at hsum
      constructor
      · intro h; exact absurd rfl h
      · intro h; omega

/-- Witness for C5 (amended): after `ops_example` all three entries are held
and `dpipe_get` returns NULL; after its first nine calls one entry is held and
`dpipe_get` returns an entry. -/
theorem acquire_succeeds_unless_all_held_witness :
    (dpipe_create registry_video0 alloc_ok 0 (some "video-1") 3 4096).1
      = some (9, pipe_new3) ∧
    ((dpipe_get (run (Sys.init pipe_new3) ops_example).d).1 ≠ none ↔
      ((run (Sys.init pipe_new3) ops_example).held.length : Int) < 3) ∧
    ((dpipe_get (run (Sys.init pipe_new3) (ops_example.take 9)).d).1 ≠ none ↔
      ((run (Sys.init pipe_new3) (ops_example.take 9)).held.length : Int) < 3) :=
  ⟨create_pipe_new3,
    (acquire_succeeds_unless_all_held registry_video0 alloc_ok 0 (some "video-1") 3 4096 9
      pipe_new3 create_pipe_new3 (alloc_ok_fresh _) ops_example).2,
    (acquire_succeeds_unless_all_held registry_video0 alloc_ok 0 (some "video-1") 3 4096 9
      pipe_new3 create_pipe_new3 (alloc_ok_fresh _) (ops_example.take 9)).2⟩

theorem Inv_acquire_times (P : Int) :
    ∀ (k : Nat) (s : Sys) (F : List Nat), Inv P s F [] → TagInv s [] → k ≤ F.length →
      Inv P (run s (List.replicate k Op.acquire)) (F.drop k) [] := by
  intro k
  induction k with
  | zero => intro s F h _ _; simpa [run] using h
  | succ k ih =>
    intro s F h ht hk
    cases F with
    | nil => simp at hk
    | cons a F1 =>
      obtain ⟨h1, ht1⟩ := Inv_acquire_free P s F1 [] a h ht
      have := ih (step s Op.acquire) F1 h1 ht1 (by simpa using hk)
      simpa [run, List.replicate_succ] using this

/-- C6: producer-only boundary.  After a successful `dpipe_create` with
`nframe` entries followed by `nframe` consecutive `dpipe_get` calls (no
publish, no release), the next `dpipe_get` returns NULL and leaves the pipe
as it is: free list and ready list empty, `out_tail` NULL, both counts zero. -/
theorem producer_only_boundary (dpipemap : String → Option Nat) (al : Alloc)
    (id : Int) (name : Option String) (nframe maxframesize : Int) (p : Nat) (d : dpipe_t)
    (hc : (dpipe_create dpipemap al id name nframe maxframesize).1 = some (p, d))
    (hfresh : ∀ i, i < nframe.toNat → ∀ j, j < nframe.toNat →
      al.malloc i = al.malloc j → i = j) :
    dpipe_get (run (Sys.init d) (List.replicate nframe.toNat Op.acquire)).d
      = (none, (run (Sys.init d) (List.replicate nframe.toNat Op.acquire)).d) ∧
    (run (Sys.init d) (List.replicate nframe.toNat Op.acquire)).d.in_ = none ∧
    (run (Sys.init d) (List.replicate nframe.toNat Op.acquire)).d.out = none ∧
    (run (Sys.init d) (List.replicate nframe.toNat Op.acquire)).d.out_tail = none ∧
    (run (Sys.init d) (List.replicate nframe.toNat Op.acquire)).d.in_count = 0 ∧
    (run (Sys.init d) (List.replicate nframe.toNat Op.acquire)).d.out_count = 0 := by
  obtain ⟨F, h, ht⟩ := Inv_init dpipemap al id name nframe maxframesize p d hc hfresh
  have hlen : F.length = nframe.toNat := by
    have := h.2.2.2.2
    simp [Sys.init] at this
    omega
  have hinv := Inv_acquire_times nframe nframe.toNat (Sys.init d) F h ht (by omega)
  rw [← hlen, List.drop_length] at hinv
  rw [← hlen]
  obtain ⟨hwf, _, hin, hout, _⟩ := hinv
  exact ⟨dpipe_get_none _ hwf, hwf.1, hwf.2.1, hwf.2.2.1, by simpa using hin,
    by simpa using hout⟩

/-- Witness for C6: the pool of three entries created for `video-1`; the
fourth `dpipe_get` returns NULL. -/
theorem producer_only_boundary_witness :
    (dpipe_create registry_video0 alloc_ok 0 (some "video-1") 3 4096).1
      = some (9, pipe_new3) ∧
    (dpipe_get (run (Sys.init pipe_new3) (List.replicate 3 Op.acquire)).d).1 = none ∧
    (run (Sys.init pipe_new3) (List.replicate 3 Op.acquire)).d.in_count = 0 ∧
    (run (Sys.init pipe_new3) (List.replicate 3 Op.acquire)).d.out_count = 0 :=
  ⟨create_pipe_new3,
    congrArg Prod.fst (producer_only_boundary registry_video0 alloc_ok 0 (some "video-1")
      3 4096 9 pipe_new3 create_pipe_new3 (alloc_ok_fresh _)).1,
    (producer_only_boundary registry_video0 alloc_ok 0 (some "video-1")
      3 4096 9 pipe_new3 create_pipe_new3 (alloc_ok_fresh _)).2.2.2.2.1,
    (producer_only_boundary registry_video0 alloc_ok 0 (some "video-1")
      3 4096 9 pipe_new3 create_pipe_new3 (alloc_ok_fresh _)).2.2.2.2.2⟩

/-! ## `dpipe_load` with a deadline -/

theorem dpipe_load_loop_spin (wait : Nat → dpipe_t → dpipe_t) (abstime : Option timespec)
    (d : dpipe_t) (failed : Int) (ha : abstime ≠ none) (hf : failed ≠ 0)
    (hout : d.out = none) :
    ∀ fuel k, dpipe_load_loop wait abstime fuel k failed d = none := by
  intro fuel
  induction fuel with
  | zero => intro k; rfl
  | succ fuel ih =>
    intro k
    simp only [dpipe_load_loop, hout, ha, hf, if_false]
    exact ih (k + 1)

/-- After the timed wait has expired without an entry having been published,
the loop of `dpipe_load` never leaves: whatever the number of iterations, the
call has not returned. -/
theorem dpipe_load_deadline_never_returns (wait : Nat → dpipe_t → dpipe_t) (d : dpipe_t)
    (ts : timespec) (hout : d.out = none) (hwait : (wait 0 d).out = none) :
    ∀ fuel, dpipe_load wait fuel d (some ts) = none := by
  intro fuel
  cases fuel with
  | zero => rfl
  | succ fuel =>
    simp only [dpipe_load, dpipe_load_loop, hout, if_true, if_false, reduceCtorEq]
    exact dpipe_load_loop_spin wait (some ts) (wait 0 d) 1 (by simp) (by decide) hwait
      fuel 1

/-- C7 (the code at the failing input): on the freshly created pool
`pipe_new3` (ready list empty), `dpipe_load` with a deadline of 100 ms and no
entry published during the wait does not return NULL: for every number of
loop iterations the call has not returned. -/
theorem dpipe_load_timeout_spins :
    pipe_new3.out = none ∧
    ∀ fuel, dpipe_load (fun _ d => d) fuel pipe_new3 (some ⟨0, 100000000⟩) = none :=
  ⟨rfl, dpipe_load_deadline_never_returns (fun _ d => d) pipe_new3 ⟨0, 100000000⟩ rfl rfl⟩

/-! ## The round trip `release(acquire())` -/

theorem release_acquire_sum (d : dpipe_t) (h : (dpipe_get d).1 ≠ none) :
    ∃ d2, release_acquire d = some d2 ∧
      d2.in_count + d2.out_count = d.in_count + d.out_count ∧
      (dpipe_get d2).1 ≠ none := by
  cases hin : d.in_ with
  | some a =>
    refine ⟨dpipe_put (dpipe_get d).2 a, ?_, ?_, ?_⟩
    · simp only [release_acquire, dpipe_get, hin]
    · simp only [dpipe_put, dpipe_get, hin]; omega
    · simp [dpipe_get, dpipe_put]
  | none =>
    cases hout : d.out with
    | some a =>
      refine ⟨dpipe_put (dpipe_get d).2 a, ?_, ?_, ?_⟩
      · simp only [release_acquire, dpipe_get, hin, hout]
      · simp only [dpipe_put, dpipe_get, hin, hout]; omega
      · simp [dpipe_get, dpipe_put]
    | none => simp [dpipe_get, hin, hout] at h

/-- C10: acquire/release round trip.  From any pipe state in which
`dpipe_get` returns an entry, `dpipe_put(dpipe_get())` can be performed `N`
times for every `N` (each `dpipe_get` returns an entry) and leaves
`in_count + out_count` equal to its initial value. -/
theorem release_acquire_roundtrip (N : Nat) :
    ∀ d : dpipe_t, (dpipe_get d).1 ≠ none →
      ∃ d2, release_acquire_times N d = some d2 ∧
        d2.in_count + d2.out_count = d.in_count + d.out_count := by
  induction N with
  | zero => intro d _; exact ⟨d, rfl, rfl⟩
  | succ N ih =>
    intro d h
    obtain ⟨d1, h1, hsum, hnext⟩ := release_acquire_sum d h
    obtain ⟨d2, h2, hsum2⟩ := ih d1 hnext
    exact ⟨d2, by simp [release_acquire_times, h1, h2], by rw [hsum2, hsum]⟩

/-- Witness for C10: five round trips on the pipe with no free entry and two
ready entries (the first acquire evicts a ready entry). -/
theorem release_acquire_roundtrip_witness :
    (dpipe_get pipe_0_23).1 ≠ none ∧
    ∃ d2, release_acquire_times 5 pipe_0_23 = some d2 ∧
      d2.in_count + d2.out_count = pipe_0_23.in_count + pipe_0_23.out_count :=
  ⟨by decide, release_acquire_roundtrip 5 pipe_0_23 (by decide)⟩

/-! ## Release, and exclusive ownership -/

/-- C11: `dpipe_put` returns the entry to the head of the free list.  On a
well-formed pipe with free list `F` and ready list `R`, for an entry `e` held
by the caller (on neither list), after `dpipe_put` the free list is `e :: F`,
`in_count` is one larger, the ready list (still `R`), `out`, `out_tail` and
`out_count` are unchanged, and the next `dpipe_get` returns `e` itself. -/
theorem dpipe_put_head (d : dpipe_t) (F R : List Nat) (e : Nat) (h : WF d F R)
    (he : e ∉ F ++ R) :
    WF (dpipe_put d e) (e :: F) R ∧
      (dpipe_put d e).in_count = d.in_count + 1 ∧
      (dpipe_put d e).out = d.out ∧ (dpipe_put d e).out_tail = d.out_tail ∧
      (dpipe_put d e).out_count = d.out_count ∧
      (dpipe_get (dpipe_put d e)).1 = some e := by
  have hwf := WF_put d F R e h he
  exact ⟨hwf, rfl, rfl, rfl, rfl, (dpipe_get_free (dpipe_put d e) F R e hwf).1⟩

/-- Witness for C11: entry 4 is released into the pipe with free list `[1]`
and ready list `[2, 3]`. -/
theorem dpipe_put_head_witness :
    WF pipe_1_23 [1] [2, 3] ∧ WF (dpipe_put pipe_1_23 4) [4, 1] [2, 3] ∧
      (dpipe_put pipe_1_23 4).in_count = 2 ∧
      (dpipe_get (dpipe_put pipe_1_23 4)).1 = some 4 :=
  ⟨by decide,
    (dpipe_put_head pipe_1_23 [1] [2, 3] 4 (by decide) (by decide)).1,
    (dpipe_put_head pipe_1_23 [1] [2, 3] 4 (by decide) (by decide)).2.1,
    (dpipe_put_head pipe_1_23 [1] [2, 3] 4 (by decide) (by decide)).2.2.2.2.2⟩

theorem WF_unique (d : dpipe_t) (F R F2 R2 : List Nat) (h : WF d F R) (h2 : WF d F2 R2) :
    F2 = F ∧ R2 = R :=
  ⟨isList_functional _ _ _ _ h2.1 h.1, isList_functional _ _ _ _ h2.2.1 h.2.1⟩

theorem Sys.receive_d (s : Sys) (r : Option Nat × dpipe_t) (consumed : Bool) :
    (s.receive r consumed).d = r.2 := by
  obtain ⟨r1, r2⟩ := r
  cases r1 <;> rfl

theorem Sys.receive_held (s : Sys) (r : Option Nat × dpipe_t) (consumed : Bool) :
    (s.receive r consumed).held = r.1.toList ++ s.held := by
  obtain ⟨r1, r2⟩ := r
  cases r1 <;> rfl

/-- One call moves entries between the free list, the ready list and the
callers, and neither creates nor loses one. -/
theorem step_lists (P : Int) (s : Sys) (op : Op) (F R : List Nat) (h : Inv P s F R) :
    ∃ F2 R2, WF (step s op).d F2 R2 ∧
      ∀ x, x ∈ F2 ++ R2 ++ (step s op).held ↔ x ∈ F ++ R ++ s.held := by
  obtain ⟨hwf, hnd, _, _, _⟩ := h
  have htake : ∀ (a : Nat) (R1 : List Nat) (c : Bool), R = a :: R1 →
      ∃ F2 R2, WF (s.receive (some a, dpipe_take_out s.d a) c).d F2 R2 ∧
        ∀ x, x ∈ F2 ++ R2 ++ (s.receive (some a, dpipe_take_out s.d a) c).held ↔
          x ∈ F ++ R ++ s.held := by
    intro a R1 c hR
    subst hR
    refine ⟨F, R1, ?_, ?_⟩
    · rw [Sys.receive_d]; exact WF_take_out s.d F R1 a hwf
    · intro x
      rw [Sys.receive_held]
      simp only [Option.toList, List.mem_append, List.mem_cons, List.mem_singleton,
        List.not_mem_nil, or_false]
      tauto
  have hsame : ∃ F2 R2, WF s.d F2 R2 ∧
      ∀ x, x ∈ F2 ++ R2 ++ s.held ↔ x ∈ F ++ R ++ s.held :=
    ⟨F, R, hwf, fun _ => Iff.rfl⟩
  cases op with
  | acquire =>
    show ∃ F2 R2, WF (s.receive (dpipe_get s.d) false).d F2 R2 ∧
      ∀ x, x ∈ F2 ++ R2 ++ (s.receive (dpipe_get s.d) false).held ↔ x ∈ F ++ R ++ s.held
    cases F with
    | cons a F1 =>
      obtain ⟨h1, h2, _⟩ := dpipe_get_free s.d F1 R a hwf
      refine ⟨F1, R, ?_, ?_⟩
      · rw [Sys.receive_d]; exact h2
      · intro x
        rw [Sys.receive_held, h1]
        simp only [Option.toList, List.mem_append, List.mem_cons, List.mem_singleton,
          List.not_mem_nil, or_false]
        tauto
    | nil =>
      cases R with
      | cons a R1 =>
        rw [dpipe_get_eq_take_out s.d a (WF_in_nil s.d _ hwf) (WF_out_eq s.d _ _ a hwf)]
        exact htake a R1 false rfl
      | nil =>
        rw [dpipe_get_none s.d hwf, Sys.receive_none]
        exact hsame
  | release e =>
    by_cases he : e ∈ s.held
    · have hfree := held_not_on_lists F R s.held e hnd he
      refine ⟨e :: F, R, ?_, ?_⟩
      · simp only [step, he, if_true]
        exact WF_put s.d F R e hwf hfree
      · intro x
        simp only [step, he, if_true, List.mem_append, List.mem_cons]
        have hx : x ∈ s.held ↔ x = e ∨ x ∈ s.held.erase e := by
          rw [← List.mem_cons]
          exact (List.perm_cons_erase he).mem_iff
        rw [hx]
        tauto
    · simp only [step, he, if_false]
      exact hsame
  | publish e =>
    by_cases he : e ∈ s.held
    · have hfree := held_not_on_lists F R s.held e hnd he
      refine ⟨F, R ++ [e], ?_, ?_⟩
      · simp only [step, he, if_true]
        exact WF_store s.d F R e hwf hfree
      · intro x
        simp only [step, he, if_true, List.mem_append, List.mem_singleton]
        have hx : x ∈ s.held ↔ x = e ∨ x ∈ s.held.erase e := by
          rw [← List.mem_cons]
          exact (List.perm_cons_erase he).mem_iff
        rw [hx]
        tauto
    · simp only [step, he, if_false]
      exact hsame
  | consume =>
    show ∃ F2 R2, WF (s.receive (dpipe_load_nowait s.d) true).d F2 R2 ∧
      ∀ x, x ∈ F2 ++ R2 ++ (s.receive (dpipe_load_nowait s.d) true).held ↔
        x ∈ F ++ R ++ s.held
    cases R with
    | cons a R1 =>
      rw [dpipe_load_nowait_eq_take_out s.d a (WF_out_eq s.d _ _ a hwf)]
      exact htake a R1 true rfl
    | nil =>
      have : dpipe_load_nowait s.d = (none, s.d) := by
        simp [dpipe_load_nowait, WF_out_nil s.d F hwf]
      rw [this, Sys.receive_none]
      exact hsame
  | consumeBlocking abstime =>
    cases R with
    | cons a R1 =>
      simp only [step, dpipe_load_eq_take_out (fun _ d => d) 0 s.d abstime a
        (WF_out_eq s.d _ _ a hwf)]
      exact htake a R1 true rfl
    | nil =>
      have : dpipe_load (fun _ d => d) 1 s.d abstime = none := by
        simp [dpipe_load, dpipe_load_loop, WF_out_nil s.d F hwf]
      simp only [step, this]
      exact hsame

theorem Pool_step (P : Int) (pool : Nat → Prop) (s : Sys) (op : Op) :
    (∃ F R, Inv P s F R ∧ TagInv s R ∧ ∀ x, x ∈ F ++ R ++ s.held ↔ pool x) →
      ∃ F2 R2, Inv P (step s op) F2 R2 ∧ TagInv (step s op) R2 ∧
        ∀ x, x ∈ F2 ++ R2 ++ (step s op).held ↔ pool x := by
  rintro ⟨F, R, h, ht, hpool⟩
  obtain ⟨F2, R2, h2, ht2⟩ := Inv_step P s op ⟨F, R, h, ht⟩
  obtain ⟨F3, R3, hwf3, hmem⟩ := step_lists P s op F R h
  obtain ⟨hF, hR⟩ := WF_unique _ F3 R3 F2 R2 hwf3 h2.1
  subst hF
  subst hR
  exact ⟨F2, R2, h2, ht2, fun x => (hmem x).trans (hpool x)⟩

theorem Pool_run (P : Int) (pool : Nat → Prop) (ops : List Op) :
    ∀ s : Sys, (∃ F R, Inv P s F R ∧ TagInv s R ∧ ∀ x, x ∈ F ++ R ++ s.held ↔ pool x) →
      ∃ F2 R2, Inv P (run s ops) F2 R2 ∧ TagInv (run s ops) R2 ∧
        ∀ x, x ∈ F2 ++ R2 ++ (run s ops).held ↔ pool x := by
  induction ops with
  | nil => intro s h; exact h
  | cons op ops ih =>
    intro s h
    exact ih (step s op) (Pool_step P pool s op h)

/-- C12: exclusive ownership.  In every state reached from a successful
`dpipe_create` by acquire, publish, consume and release calls applied only to
caller-held entries, the entries of the pool (the buffers handed out by
`malloc` during the create) are exactly the entries of the free list `F`, the
ready list `R` and the callers, each occurring once: `F ++ R ++ held` has no
duplicates, so neither list has a duplicate and they share no entry; and
`out_tail` is the last entry of the ready list, NULL exactly when the ready
list is empty. -/
theorem exclusive_ownership (dpipemap : String → Option Nat) (al : Alloc) (id : Int)
    (name : Option String) (nframe maxframesize : Int) (p : Nat) (d : dpipe_t)
    (hc : (dpipe_create dpipemap al id name nframe maxframesize).1 = some (p, d))
    (hfresh : ∀ i, i < nframe.toNat → ∀ j, j < nframe.toNat →
      al.malloc i = al.malloc j → i = j)
    (ops : List Op) :
    ∃ F R, isList (run (Sys.init d) ops).d.next (run (Sys.init d) ops).d.in_ F ∧
      isList (run (Sys.init d) ops).d.next (run (Sys.init d) ops).d.out R ∧
      (∀ x, (∃ k, k < nframe.toNat ∧ al.malloc k = some x) ↔
        x ∈ F ++ R ++ (run (Sys.init d) ops).held) ∧
      (F ++ R ++ (run (Sys.init d) ops).held).Nodup ∧
      F.Nodup ∧ R.Nodup ∧ (∀ x, x ∈ F → x ∉ R) ∧
      (run (Sys.init d) ops).d.out_tail = R.getLast? ∧
      ((run (Sys.init d) ops).d.out_tail = none ↔ R = []) := by
  obtain ⟨F0, h0, ht0⟩ := Inv_init dpipemap al id name nframe maxframesize p d hc hfresh
  obtain ⟨_, _, F1, h1, _, hmem, _⟩ :=
    dpipe_create_success dpipemap al id name nframe maxframesize p d hc hfresh
  have hF : F0 = F1 := isList_functional _ _ _ _ h0.1.1 h1
  subst hF
  obtain ⟨F, R, ⟨hwf, hnd, _⟩, _, hpool⟩ :=
    Pool_run nframe (fun x => ∃ k, k < nframe.toNat ∧ al.malloc k = some x) ops
      (Sys.init d) ⟨F0, [], h0, ht0, by
        intro x
        show x ∈ F0 ++ [] ++ (Sys.init d).held ↔
          ∃ k, k < nframe.toNat ∧ al.malloc k = some x
        rw [← hmem x]
        simp [Sys.init]⟩
  have hFR : (F ++ R).Nodup := (List.nodup_append.mp hnd).1
  refine ⟨F, R, hwf.1, hwf.2.1, fun x => (hpool x).symm, hnd,
    (List.nodup_append.mp hFR).1, (List.nodup_append.mp hFR).2.1,
    fun x hx hxR => (List.nodup_append.mp hFR).2.2 hx hxR, hwf.2.2.1, ?_⟩
  rw [hwf.2.2.1]
  exact List.getLast?_eq_none_iff

/-- Witness for C12: the pool of three entries created for `video-1`, after
the calls of `ops_example`. -/
theorem exclusive_ownership_witness :
    (dpipe_create registry_video0 alloc_ok 0 (some "video-1") 3 4096).1
      = some (9, pipe_new3) ∧
    ∃ F R, isList (run (Sys.init pipe_new3) ops_example).d.next
        (run (Sys.init pipe_new3) ops_example).d.in_ F ∧
      isList (run (Sys.init pipe_new3) ops_example).d.next
        (run (Sys.init pipe_new3) ops_example).d.out R ∧
      (∀ x, (∃ k, k < (3 : Int).toNat ∧ alloc_ok.malloc k = some x) ↔
        x ∈ F ++ R ++ (run (Sys.init pipe_new3) ops_example).held) ∧
      (F ++ R ++ (run (Sys.init pipe_new3) ops_example).held).Nodup ∧
      F.Nodup ∧ R.Nodup ∧ (∀ x, x ∈ F → x ∉ R) ∧
      (run (Sys.init pipe_new3) ops_example).d.out_tail = R.getLast? ∧
      ((run (Sys.init pipe_new3) ops_example).d.out_tail = none ↔ R = []) :=
  ⟨create_pipe_new3,
    exclusive_ownership registry_video0 alloc_ok 0 (some "video-1") 3 4096 9 pipe_new3
      create_pipe_new3 (alloc_ok_fresh _) ops_example⟩

/-! ## The audio buffer -/

theorem bytes_of_length (m : Int → Nat) (off n : Int) : (bytes_of m off n).length = n.toNat := by
  simp [bytes_of]

theorem bytes_of_congr (m m2 : Int → Nat) (off n : Int)
    (h : ∀ j, off ≤ j → j < off + n → m j = m2 j) : bytes_of m off n = bytes_of m2 off n := by
  unfold bytes_of
  apply List.map_congr_left
  intro i hi
  have hi2 : i < n.toNat := List.mem_range.mp hi
  apply h <;> omega

theorem bytes_of_shift (m m2 : Int → Nat) (off off2 n : Int)
    (h : ∀ i : Int, 0 ≤ i → i < n → m (off + i) = m2 (off2 + i)) :
    bytes_of m off n = bytes_of m2 off2 n := by
  unfold bytes_of
  apply List.map_congr_left
  intro i hi
  have hi2 : i < n.toNat := List.mem_range.mp hi
  apply h <;> omega

theorem bytes_of_add (m : Int → Nat) (off n1 n2 : Int) (h1 : 0 ≤ n1) (h2 : 0 ≤ n2) :
    bytes_of m off (n1 + n2) = bytes_of m off n1 ++ bytes_of m (off + n1) n2 := by
  unfold bytes_of
  have hsplit : (n1 + n2).toNat = n1.toNat + n2.toNat := by omega
  rw [hsplit, List.range_add, List.map_append, List.map_map]
  congr 1
  apply List.map_congr_left
  intro i _
  show m (off + ((n1.toNat + i : Nat) : Int)) = m (off + n1 + (i : Int))
  congr 1
  push_cast
  omega

theorem bytes_of_zeros (off n : Int) : bytes_of (fun _ => 0) off n = List.replicate n.toNat 0 := by
  unfold bytes_of
  apply List.ext_getElem
  · simp
  · intro i h1 h2
    simp

theorem bytes_of_take (m : Int → Nat) (off n k : Int) (hk : 0 ≤ k) (hkn : k ≤ n) :
    (bytes_of m off n).take k.toNat = bytes_of m off k := by
  have hn : n = k + (n - k) := by omega
  rw [hn, bytes_of_add m off k (n - k) hk (by omega)]
  rw [List.take_left' (bytes_of_length m off k)]

/-- The source of the appended bytes: `data`, or a memory of zeros when `data`
is NULL. -/
theorem fill_bytes_eq (data : Option (Int → Nat)) (n : Int) :
    fill_bytes data n = bytes_of (data.getD (fun _ => 0)) 0 n := by
  cases data with
  | none => simp [fill_bytes, bytes_of_zeros]
  | some d => rfl

theorem audio_fill_retry_drop (data : Option (Int → Nat)) (frames framesize : Int) (fuel : Nat)
    (ab : audio_buffer_t) (h : ab.bufhead + (ab.bufsize - ab.buftail) < framesize) :
    audio_fill_retry data frames framesize (fuel + 1) ab = some ab := by
  simp [audio_fill_retry, h]

theorem audio_fill_retry_append (data : Option (Int → Nat)) (frames framesize : Int)
    (fuel : Nat) (ab : audio_buffer_t)
    (h : framesize ≤ ab.bufhead + (ab.bufsize - ab.buftail))
    (h2 : framesize ≤ ab.bufsize - ab.buftail) :
    audio_fill_retry data frames framesize (fuel + 1) ab = some
      { ab with
        buffer :=
          match data with
          | none => memset_zero ab.buffer ab.buftail framesize
          | some d => copy_bytes d 0 ab.buffer ab.buftail framesize
        buftail := ab.buftail + framesize
        bframes := ab.bframes + frames } := by
  have h3 : ¬ (ab.bufhead + (ab.bufsize - ab.buftail) < framesize) := by omega
  simp [audio_fill_retry, h3, h2]

theorem audio_fill_retry_compact (data : Option (Int → Nat)) (frames framesize : Int)
    (fuel : Nat) (ab : audio_buffer_t)
    (h : framesize ≤ ab.bufhead + (ab.bufsize - ab.buftail))
    (h2 : ab.bufsize - ab.buftail < framesize) :
    audio_fill_retry data frames framesize (fuel + 1) ab =
      audio_fill_retry data frames framesize fuel
        { ab with
          buffer := copy_bytes ab.buffer ab.bufhead ab.buffer 0 (ab.buftail - ab.bufhead)
          buftail := ab.buftail - ab.bufhead
          bufhead := 0 } := by
  have h3 : ¬ (ab.bufhead + (ab.bufsize - ab.buftail) < framesize) := by omega
  have h4 : ¬ (framesize ≤ ab.bufsize - ab.buftail) := by omega
  simp [audio_fill_retry, h3, h4]

/-- The `retry` label is passed at most twice: the loop of
`audio_source_buffer_fill_one` always ends within two passes. -/
theorem audio_fill_retry_total (data : Option (Int → Nat)) (frames framesize : Int)
    (fuel : Nat) (ab : audio_buffer_t) :
    ∃ ab2, audio_fill_retry data frames framesize (fuel + 2) ab = some ab2 := by
  by_cases h : ab.bufhead + (ab.bufsize - ab.buftail) < framesize
  · exact ⟨ab, audio_fill_retry_drop data frames framesize (fuel + 1) ab h⟩
  · by_cases h2 : framesize ≤ ab.bufsize - ab.buftail
    · exact ⟨_, audio_fill_retry_append data frames framesize (fuel + 1) ab (by omega) h2⟩
    · rw [audio_fill_retry_compact data frames framesize (fuel + 1) ab (by omega) (by omega)]
      exact ⟨_, audio_fill_retry_append data frames framesize fuel _
        (by show framesize ≤ 0 + (ab.bufsize - (ab.buftail - ab.bufhead)); omega)
        (by show framesize ≤ ab.bufsize - (ab.buftail - ab.bufhead); omega)⟩

theorem audio_source_buffer_fill_one_total (fuel : Nat) (ab : audio_buffer_t)
    (data : Option (Int → Nat)) (frames : Int) :
    ∃ ab2, audio_source_buffer_fill_one (fuel + 2) ab data frames = some ab2 := by
  unfold audio_source_buffer_fill_one
  by_cases h : frames ≤ 0
  · exact ⟨ab, by simp [h]⟩
  · simp only [h, if_false]
    exact audio_fill_retry_total data frames _ fuel ab

theorem append_buffer_eq (data : Option (Int → Nat)) (dst : Int → Nat) (off n : Int) :
    (match data with
      | none => memset_zero dst off n
      | some d => copy_bytes d 0 dst off n)
      = copy_bytes (data.getD (fun _ => 0)) 0 dst off n := by
  cases data <;> rfl

theorem live_bytes_append (ab : audio_buffer_t) (src : Int → Nat) (n b : Int)
    (hht : ab.bufhead ≤ ab.buftail) (hn : 0 ≤ n) :
    live_bytes
      { ab with
        buffer := copy_bytes src 0 ab.buffer ab.buftail n
        buftail := ab.buftail + n
        bframes := b }
      = live_bytes ab ++ bytes_of src 0 n := by
  show bytes_of (copy_bytes src 0 ab.buffer ab.buftail n) ab.bufhead
      (ab.buftail + n - ab.bufhead)
    = bytes_of ab.buffer ab.bufhead (ab.buftail - ab.bufhead) ++ bytes_of src 0 n
  have e : ab.buftail + n - ab.bufhead = (ab.buftail - ab.bufhead) + n := by omega
  rw [e, bytes_of_add _ _ _ _ (by omega) hn]
  congr 1
  · apply bytes_of_congr
    intro j _ hj2
    have : ¬ (ab.buftail ≤ j ∧ j < ab.buftail + n) := by omega
    simp [copy_bytes, this]
  · apply bytes_of_shift
    intro i hi0 hin
    have : ab.buftail ≤ ab.bufhead + (ab.buftail - ab.bufhead) + i ∧
        ab.bufhead + (ab.buftail - ab.bufhead) + i < ab.buftail + n := by omega
    simp only [copy_bytes, this, and_self, if_true]
    congr 1
    omega

theorem live_bytes_compact (ab : audio_buffer_t) :
    live_bytes
      { ab with
        buffer := copy_bytes ab.buffer ab.bufhead ab.buffer 0 (ab.buftail - ab.bufhead)
        buftail := ab.buftail - ab.bufhead
        bufhead := 0 }
      = live_bytes ab := by
  show bytes_of (copy_bytes ab.buffer ab.bufhead ab.buffer 0 (ab.buftail - ab.bufhead)) 0
      (ab.buftail - ab.bufhead - 0)
    = bytes_of ab.buffer ab.bufhead (ab.buftail - ab.bufhead)
  rw [Int.sub_zero]
  apply bytes_of_shift
  intro i hi0 hin
  have : (0 : Int) ≤ 0 + i ∧ 0 + i < 0 + (ab.buftail - ab.bufhead) := by omega
  simp only [copy_bytes, this, and_self, if_true]
  congr 1
  omega

/-- A fill of `framesize >= 0` bytes that fits the free space, from the label
`retry` on. -/
theorem audio_fill_retry_fits (data : Option (Int → Nat)) (frames framesize : Int)
    (ab : audio_buffer_t) (hht : ab.bufhead ≤ ab.buftail) (hs : 0 ≤ framesize)
    (hfit : framesize ≤ ab.bufhead + (ab.bufsize - ab.buftail)) :
    ∃ ab2, audio_fill_retry data frames framesize 2 ab = some ab2 ∧
      live_bytes ab2 = live_bytes ab ++ fill_bytes data framesize ∧
      ab2.bframes = ab.bframes + frames ∧
      ab2.buftail - ab2.bufhead = ab.buftail - ab.bufhead + framesize ∧
      ab2.buftail ≤ ab.bufsize ∧
      ab2.channels = ab.channels ∧ ab2.bitspersample = ab.bitspersample ∧
      ab2.bufsize = ab.bufsize ∧ ab2.bufPts = ab.bufPts ∧ ab2.frames = ab.frames ∧
      (framesize ≤ ab.bufsize - ab.buftail →
        audio_fill_retry data frames framesize 1 ab = some ab2 ∧
          ab2.bufhead = ab.bufhead) ∧
      (ab.bufsize - ab.buftail < framesize → ab2.bufhead = 0) := by
  by_cases h2 : framesize ≤ ab.bufsize - ab.buftail
  · refine ⟨_, audio_fill_retry_append data frames framesize 1 ab hfit h2, ?_, rfl, ?_, ?_,
      rfl, rfl, rfl, rfl, rfl, ?_, ?_⟩
    · rw [append_buffer_eq, fill_bytes_eq]
      exact live_bytes_append ab _ framesize _ hht hs
    · show ab.buftail + framesize - ab.bufhead = ab.buftail - ab.bufhead + framesize
      omega
    · show ab.buftail + framesize ≤ ab.bufsize
      omega
    · intro _
      exact ⟨audio_fill_retry_append data frames framesize 0 ab hfit h2, rfl⟩
    · intro h3; omega
  · have h3 : ab.bufsize - ab.buftail < framesize := by omega
    refine ⟨
        { ab with
          buffer := copy_bytes (data.getD (fun _ => 0)) 0
            (copy_bytes ab.buffer ab.bufhead ab.buffer 0 (ab.buftail - ab.bufhead))
            (ab.buftail - ab.bufhead) framesize
          buftail := ab.buftail - ab.bufhead + framesize
          bufhead := 0
          bframes := ab.bframes + frames },
        ?_, ?_, rfl, ?_, ?_, rfl, rfl, rfl, rfl, rfl, ?_, ?_⟩
    · rw [audio_fill_retry_compact data frames framesize 1 ab hfit h3,
        audio_fill_retry_append data frames framesize 0 _
          (by show framesize ≤ 0 + (ab.bufsize - (ab.buftail - ab.bufhead)); omega)
          (by show framesize ≤ ab.bufsize - (ab.buftail - ab.bufhead); omega),
        append_buffer_eq]
    · rw [fill_bytes_eq, ← live_bytes_compact ab]
      exact live_bytes_append
        { ab with
          buffer := copy_bytes ab.buffer ab.bufhead ab.buffer 0 (ab.buftail - ab.bufhead)
          buftail := ab.buftail - ab.bufhead
          bufhead := 0 } _ framesize _
        (by show (0 : Int) ≤ ab.buftail - ab.bufhead; omega) hs
    · show ab.buftail - ab.bufhead + framesize - 0 = ab.buftail - ab.bufhead + framesize
      omega
    · show ab.buftail - ab.bufhead + framesize ≤ ab.bufsize
      omega
    · intro h4; omega
    · intro _; rfl

/-- C13: a fill appends, compacting when needed.  For a buffer with
`bufhead <= buftail` and a fill of `n > 0` frames whose byte size
`s = n * channels * bitspersample / 8` (a size: `0 <= s`) satisfies
`s <= bufhead + (bufsize - buftail)`, `audio_source_buffer_fill_one` ends
within two passes through `retry` (at most one compaction); afterwards the
live bytes are the previous live bytes followed by the `s` bytes of `data`
(`s` zero bytes when `data` is NULL) and `bframes` has grown by `n`; when
`s <= bufsize - buftail` the first pass appends in place and `bufhead` is
unchanged, otherwise `bufhead` is 0. -/
theorem audio_fill_appends (ab : audio_buffer_t) (data : Option (Int → Nat)) (n : Int)
    (hht : ab.bufhead ≤ ab.buftail) (hn : 0 < n)
    (hs : 0 ≤ Int.tdiv (n * ab.channels * ab.bitspersample) 8)
    (hfit : Int.tdiv (n * ab.channels * ab.bitspersample) 8
      ≤ ab.bufhead + (ab.bufsize - ab.buftail)) :
    ∃ ab2, audio_source_buffer_fill_one 2 ab data n = some ab2 ∧
      live_bytes ab2 = live_bytes ab ++
        fill_bytes data (Int.tdiv (n * ab.channels * ab.bitspersample) 8) ∧
      ab2.bframes = ab.bframes + n ∧
      (Int.tdiv (n * ab.channels * ab.bitspersample) 8 ≤ ab.bufsize - ab.buftail →
        audio_source_buffer_fill_one 1 ab data n = some ab2 ∧ ab2.bufhead = ab.bufhead) ∧
      (ab.bufsize - ab.buftail < Int.tdiv (n * ab.channels * ab.bitspersample) 8 →
        ab2.bufhead = 0) := by
  have hn2 : ¬ n ≤ 0 := by omega
  obtain ⟨ab2, h1, h2, h3, _, _, _, _, _, _, _, h4, h5⟩ :=
    audio_fill_retry_fits data n _ ab hht hs hfit
  refine ⟨ab2, ?_, h2, h3, ?_, h5⟩
  · simp only [audio_source_buffer_fill_one, hn2, if_false]
    exact h1
  · intro h
    simp only [audio_source_buffer_fill_one, hn2, if_false]
    exact h4 h

/-- Witness for C13: 4 frames of `pcm` are filled into the 8-byte buffer whose
live bytes are `[4, 5]` at offsets 4 and 5; the tail space (2 bytes) does not
suffice, the live bytes are moved to offset 0 and the packet is appended. -/
theorem audio_fill_appends_witness :
    live_bytes audio_buf_small = [4, 5] ∧ fill_bytes (some pcm) 4 = [0, 1, 2, 3] ∧
    ∃ ab2, audio_source_buffer_fill_one 2 audio_buf_small (some pcm) 4 = some ab2 ∧
      live_bytes ab2 = live_bytes audio_buf_small ++
        fill_bytes (some pcm)
          (Int.tdiv (4 * audio_buf_small.channels * audio_buf_small.bitspersample) 8) ∧
      ab2.bframes = audio_buf_small.bframes + 4 ∧
      (Int.tdiv (4 * audio_buf_small.channels * audio_buf_small.bitspersample) 8
          ≤ audio_buf_small.bufsize - audio_buf_small.buftail →
        audio_source_buffer_fill_one 1 audio_buf_small (some pcm) 4 = some ab2 ∧
          ab2.bufhead = audio_buf_small.bufhead) ∧
      (audio_buf_small.bufsize - audio_buf_small.buftail
          < Int.tdiv (4 * audio_buf_small.channels * audio_buf_small.bitspersample) 8 →
        ab2.bufhead = 0) :=
  ⟨by decide, by decide,
    audio_fill_appends audio_buf_small (some pcm) 4 (by decide) (by decide) (by decide)
      (by decide)⟩

theorem framesize_whole (k c b : Int) (hk : 0 ≤ k) (hcb : 0 ≤ c * b)
    (h8 : (c * b) % 8 = 0) : Int.tdiv (k * c * b) 8 = k * (c * b / 8) := by
  rw [Int.mul_assoc, Int.tdiv_eq_ediv (Int.mul_nonneg hk hcb) (by decide)]
  exact Int.mul_ediv_assoc k (Int.dvd_of_emod_eq_zero h8)

/-- What `audio_source_buffer_read` does when it copies `k > 0` frames and no
wait takes place. -/
theorem audio_read_copy (wait : audio_buffer_t → audio_buffer_t) (ab : audio_buffer_t)
    (buf : Int → Nat) (n k : Int) (hn : 0 < n) (hb : ab.bframes ≠ 0)
    (hk : k = if ab.bframes ≥ n then n else ab.bframes) (hkpos : 0 < k) :
    audio_source_buffer_read wait ab buf n =
      (k,
        (if ab.bframes - k = 0 then
          { ab with
            bufhead := 0
            buftail := 0
            bframes := ab.bframes - k
            bufPts := ab.bufPts + k }
        else
          { ab with
            bufhead := ab.bufhead + Int.tdiv (k * ab.channels * ab.bitspersample) 8
            bframes := ab.bframes - k
            bufPts := ab.bufPts + k }),
        copy_bytes ab.buffer ab.bufhead buf 0
          (Int.tdiv (k * ab.channels * ab.bitspersample) 8)) := by
  have hn2 : ¬ n ≤ 0 := by omega
  simp only [audio_source_buffer_read, hn2, if_false, hb, ← hk, gt_iff_lt, hkpos, if_true]

theorem audio_read_empty (wait : audio_buffer_t → audio_buffer_t) (ab : audio_buffer_t)
    (buf : Int → Nat) (n : Int) (hn : 0 < n) (hb : ab.bframes = 0) (hw : wait ab = ab) :
    audio_source_buffer_read wait ab buf n = (0, ab, buf) := by
  have hn2 : ¬ n ≤ 0 := by omega
  have hn3 : ¬ (0 ≥ n) := by omega
  simp [audio_source_buffer_read, hn2, hb, hw, hn3]

/-- A read of `n > 0` frames from a consistent buffer: `k = min bframes n`
frames of `B` bytes each are copied. -/
theorem audio_read_spec (wait : audio_buffer_t → audio_buffer_t) (ab : audio_buffer_t)
    (buf : Int → Nat) (n k B : Int) (hwf : audio_wf ab) (hn : 0 < n)
    (hw : ab.bframes = 0 → wait ab = ab)
    (hk : k = min ab.bframes n) (hB : B = ab.channels * ab.bitspersample / 8) :
    (audio_source_buffer_read wait ab buf n).1 = k ∧
    (0 ≤ k ∧ 0 ≤ B ∧ k * B ≤ ab.buftail - ab.bufhead) ∧
    bytes_of (audio_source_buffer_read wait ab buf n).2.2 0 (k * B)
      = bytes_of ab.buffer ab.bufhead (k * B) ∧
    (∀ j, ¬ (0 ≤ j ∧ j < k * B) → (audio_source_buffer_read wait ab buf n).2.2 j = buf j) ∧
    ((audio_source_buffer_read wait ab buf n).2.1.bframes = ab.bframes - k ∧
      (audio_source_buffer_read wait ab buf n).2.1.bufPts = ab.bufPts + k) ∧
    (k < ab.bframes →
      (audio_source_buffer_read wait ab buf n).2.1.bufhead = ab.bufhead + k * B ∧
      (audio_source_buffer_read wait ab buf n).2.1.buftail = ab.buftail) ∧
    (k = ab.bframes →
      (audio_source_buffer_read wait ab buf n).2.1.bufhead = 0 ∧
      (audio_source_buffer_read wait ab buf n).2.1.buftail = 0) ∧
    live_bytes ab = bytes_of ab.buffer ab.bufhead (k * B)
      ++ live_bytes (audio_source_buffer_read wait ab buf n).2.1 ∧
    audio_wf (audio_source_buffer_read wait ab buf n).2.1 ∧
    ((audio_source_buffer_read wait ab buf n).2.1.channels = ab.channels ∧
      (audio_source_buffer_read wait ab buf n).2.1.bitspersample = ab.bitspersample ∧
      (audio_source_buffer_read wait ab buf n).2.1.bufsize = ab.bufsize) := by
  obtain ⟨hcb, h8, hb0, hh0, hht, hlen, hempty⟩ := hwf
  rw [← hB] at hlen
  have hB0 : 0 ≤ B := by rw [hB]; omega
  by_cases hb : ab.bframes = 0
  · have hk0 : k = 0 := by rw [hk, hb]; omega
    have hhead : ab.bufhead = 0 := hempty hb
    have htail : ab.buftail = 0 := by rw [hb] at hlen; simp at hlen; omega
    rw [audio_read_empty wait ab buf n hn hb (hw hb)]
    subst hk0
    refine ⟨rfl, ⟨by omega, hB0, by simp; omega⟩, by simp [bytes_of], fun _ _ => rfl,
      ⟨by simp [hb], by simp⟩, fun h => by omega, fun _ => ⟨hhead, htail⟩, by simp [bytes_of],
      ⟨hcb, h8, hb0, hh0, hht, by rw [← hB]; exact hlen, hempty⟩, rfl, rfl, rfl⟩
  · have hkif : k = if ab.bframes ≥ n then n else ab.bframes := by
      rw [hk]
      by_cases h : ab.bframes ≥ n
      · rw [if_pos h]; omega
      · rw [if_neg h]; omega
    have hkpos : 0 < k := by rw [hk]; omega
    have hkb : k ≤ ab.bframes := by rw [hk]; omega
    have hsize : Int.tdiv (k * ab.channels * ab.bitspersample) 8 = k * B := by
      rw [hB]; exact framesize_whole k _ _ (by omega) hcb h8
    have hkB0 : 0 ≤ k * B := Int.mul_nonneg (by omega) hB0
    have hkB : k * B ≤ ab.bframes * B := Int.mul_le_mul_of_nonneg_right hkb hB0
    have hsub : (ab.bframes - k) * B = ab.bframes * B - k * B := Int.sub_mul _ _ _
    rw [audio_read_copy wait ab buf n k hn hb hkif hkpos, hsize]
    have hdest : bytes_of (copy_bytes ab.buffer ab.bufhead buf 0 (k * B)) 0 (k * B)
        = bytes_of ab.buffer ab.bufhead (k * B) := by
      apply bytes_of_shift
      intro i hi0 hi1
      have : (0 : Int) ≤ 0 + i ∧ 0 + i < 0 + k * B := by omega
      simp only [copy_bytes, this, and_self, if_true]
      congr 1
      omega
    have hrest : ∀ j, ¬ (0 ≤ j ∧ j < k * B) →
        copy_bytes ab.buffer ab.bufhead buf 0 (k * B) j = buf j := by
      intro j hj
      have : ¬ (0 ≤ j ∧ j < 0 + k * B) := by omega
      show (if 0 ≤ j ∧ j < 0 + k * B then ab.buffer (ab.bufhead + (j - 0)) else buf j) = buf j
      rw [if_neg this]
    by_cases h0 : ab.bframes - k = 0
    · rw [if_pos h0]
      have hkeq : k = ab.bframes := by omega
      refine ⟨rfl, ⟨by omega, hB0, by omega⟩, hdest, hrest, ⟨rfl, rfl⟩, fun h => by omega,
        fun _ => ⟨rfl, rfl⟩, ?_, ⟨hcb, h8, by show 0 ≤ ab.bframes - k; omega,
          by show (0 : Int) ≤ 0; omega, by show (0 : Int) ≤ 0; omega, ?_, fun _ => rfl⟩,
        rfl, rfl, rfl⟩
      · show bytes_of ab.buffer ab.bufhead (ab.buftail - ab.bufhead)
          = bytes_of ab.buffer ab.bufhead (k * B) ++ bytes_of ab.buffer 0 (0 - 0)
        have : ab.buftail - ab.bufhead = k * B := by rw [hkeq]; exact hlen
        rw [this]
        simp [bytes_of]
      · show (0 : Int) - 0 = (ab.bframes - k) * (ab.channels * ab.bitspersample / 8)
        rw [h0]
        simp
    · rw [if_neg h0]
      refine ⟨rfl, ⟨by omega, hB0, by omega⟩, hdest, hrest, ⟨rfl, rfl⟩, fun _ => ⟨rfl, rfl⟩,
        fun h => by omega, ?_, ⟨hcb, h8, ?_, ?_, ?_, ?_, ?_⟩, rfl, rfl, rfl⟩
      · show bytes_of ab.buffer ab.bufhead (ab.buftail - ab.bufhead)
          = bytes_of ab.buffer ab.bufhead (k * B)
            ++ bytes_of ab.buffer (ab.bufhead + k * B) (ab.buftail - (ab.bufhead + k * B))
        have : ab.buftail - ab.bufhead = k * B + (ab.buftail - (ab.bufhead + k * B)) := by
          omega
        rw [this, bytes_of_add _ _ _ _ hkB0 (by omega)]
      · show 0 ≤ ab.bframes - k
        omega
      · show 0 ≤ ab.bufhead + k * B
        omega
      · show ab.bufhead + k * B ≤ ab.buftail
        omega
      · show ab.buftail - (ab.bufhead + k * B)
          = (ab.bframes - k) * (ab.channels * ab.bitspersample / 8)
        rw [← hB, hsub]
        omega
      · intro h
        exact absurd h h0

/-- C15: a read copies `min(available, requested)` frames.  On a consistent
buffer holding `bframes` frames of `B` bytes each, a read of `n > 0` frames
(nothing being filled while it waits on an empty buffer) returns
`k = min bframes n`, copies the first `k * B` live bytes to the start of the
destination in order, increases `bufPts` by `k`, decreases `bframes` by `k`,
and advances `bufhead` by `k * B` when frames remain; when the buffer becomes
empty `bufhead = buftail = 0`. -/
theorem audio_read_min (wait : audio_buffer_t → audio_buffer_t) (ab : audio_buffer_t)
    (buf : Int → Nat) (n k B : Int) (hwf : audio_wf ab) (hn : 0 < n)
    (hw : ab.bframes = 0 → wait ab = ab)
    (hk : k = min ab.bframes n) (hB : B = ab.channels * ab.bitspersample / 8) :
    (audio_source_buffer_read wait ab buf n).1 = k ∧
    bytes_of (audio_source_buffer_read wait ab buf n).2.2 0 (k * B)
      = (live_bytes ab).take (k * B).toNat ∧
    (audio_source_buffer_read wait ab buf n).2.1.bframes = ab.bframes - k ∧
    (audio_source_buffer_read wait ab buf n).2.1.bufPts = ab.bufPts + k ∧
    (k < ab.bframes →
      (audio_source_buffer_read wait ab buf n).2.1.bufhead = ab.bufhead + k * B ∧
      (audio_source_buffer_read wait ab buf n).2.1.buftail = ab.buftail) ∧
    (k = ab.bframes →
      (audio_source_buffer_read wait ab buf n).2.1.bufhead = 0 ∧
      (audio_source_buffer_read wait ab buf n).2.1.buftail = 0) := by
  obtain ⟨h1, ⟨hk0, hB0, hle⟩, h3, _, ⟨h5, h6⟩, h7, h8, _⟩ :=
    audio_read_spec wait ab buf n k B hwf hn hw hk hB
  refine ⟨h1, ?_, h5, h6, h7, h8⟩
  rw [h3]
  exact (bytes_of_take ab.buffer ab.bufhead (ab.buftail - ab.bufhead) (k * B)
    (Int.mul_nonneg hk0 hB0) hle).symm

/-- Witness for C15, the partial-read scenario: the buffer holds 5 frames
(20 bytes); a read of 10 frames returns 5, delivers the 20 bytes and leaves
the buffer empty with `bufhead = buftail = 0`. -/
theorem audio_read_min_witness :
    audio_wf audio_buf_100_5 ∧ audio_buf_100_5.bframes = 5 ∧
    (audio_source_buffer_read (fun x => x) audio_buf_100_5 (fun _ => 0) 10).1 = 5 ∧
    bytes_of (audio_source_buffer_read (fun x => x) audio_buf_100_5 (fun _ => 0) 10).2.2 0
        (5 * 4) = (live_bytes audio_buf_100_5).take (5 * 4 : Int).toNat ∧
    (audio_source_buffer_read (fun x => x) audio_buf_100_5 (fun _ => 0) 10).2.1.bframes
      = audio_buf_100_5.bframes - 5 ∧
    (audio_source_buffer_read (fun x => x) audio_buf_100_5 (fun _ => 0) 10).2.1.bufPts
      = audio_buf_100_5.bufPts + 5 ∧
    (5 < audio_buf_100_5.bframes →
      (audio_source_buffer_read (fun x => x) audio_buf_100_5 (fun _ => 0) 10).2.1.bufhead
        = audio_buf_100_5.bufhead + 5 * 4 ∧
      (audio_source_buffer_read (fun x => x) audio_buf_100_5 (fun _ => 0) 10).2.1.buftail
        = audio_buf_100_5.buftail) ∧
    (5 = audio_buf_100_5.bframes →
      (audio_source_buffer_read (fun x => x) audio_buf_100_5 (fun _ => 0) 10).2.1.bufhead = 0 ∧
      (audio_source_buffer_read (fun x => x) audio_buf_100_5 (fun _ => 0) 10).2.1.buftail
        = 0) :=
  ⟨by decide, rfl,
    audio_read_min (fun x => x) audio_buf_100_5 (fun _ => 0) 10 5 4 (by decide) (by decide)
      (fun _ => rfl) (by decide) (by decide)⟩

/-- C16: fill/read round trip.  On an empty buffer (`bframes = 0`,
`bufhead = buftail = 0`), a fill of `n > 0` frames whose byte size
`s = n * channels * bitspersample / 8` fits the capacity (`s <= bufsize`),
followed by a read of `n` frames, returns `n`; the first `s` bytes of the
destination are exactly the `s` bytes of `data` (zeros when `data` is NULL) in
order, and the buffer is empty again with `bufhead = buftail = 0`. -/
theorem audio_fill_read_roundtrip (wait : audio_buffer_t → audio_buffer_t) (fuel : Nat)
    (ab : audio_buffer_t) (data : Option (Int → Nat)) (dest : Int → Nat) (n : Int)
    (hb : ab.bframes = 0) (hh : ab.bufhead = 0) (ht : ab.buftail = 0) (hn : 0 < n)
    (hfit : Int.tdiv (n * ab.channels * ab.bitspersample) 8 ≤ ab.bufsize) :
    ∃ ab1, audio_source_buffer_fill_one (fuel + 1) ab data n = some ab1 ∧
      (audio_source_buffer_read wait ab1 dest n).1 = n ∧
      bytes_of (audio_source_buffer_read wait ab1 dest n).2.2 0
          (Int.tdiv (n * ab.channels * ab.bitspersample) 8)
        = fill_bytes data (Int.tdiv (n * ab.channels * ab.bitspersample) 8) ∧
      (audio_source_buffer_read wait ab1 dest n).2.1.bframes = 0 ∧
      (audio_source_buffer_read wait ab1 dest n).2.1.bufhead = 0 ∧
      (audio_source_buffer_read wait ab1 dest n).2.1.buftail = 0 := by
  have hn2 : ¬ n ≤ 0 := by omega
  have hfill : audio_source_buffer_fill_one (fuel + 1) ab data n = some
      { ab with
        buffer := copy_bytes (data.getD (fun _ => 0)) 0 ab.buffer ab.buftail
          (Int.tdiv (n * ab.channels * ab.bitspersample) 8)
        buftail := ab.buftail + Int.tdiv (n * ab.channels * ab.bitspersample) 8
        bframes := ab.bframes + n } := by
    simp only [audio_source_buffer_fill_one, hn2, if_false]
    rw [audio_fill_retry_append data n _ fuel ab (by omega) (by omega), append_buffer_eq]
  refine ⟨_, hfill, ?_⟩
  have hread := audio_read_copy wait
    { ab with
      buffer := copy_bytes (data.getD (fun _ => 0)) 0 ab.buffer ab.buftail
        (Int.tdiv (n * ab.channels * ab.bitspersample) 8)
      buftail := ab.buftail + Int.tdiv (n * ab.channels * ab.bitspersample) 8
      bframes := ab.bframes + n } dest n n hn
    (by show ab.bframes + n ≠ 0; omega)
    (by show n = if ab.bframes + n ≥ n then n else ab.bframes + n
        rw [if_pos (by omega)])
    hn
  have h0 : ab.bframes + n - n = 0 := by omega
  rw [hread]
  refine ⟨rfl, ?_, ?_, ?_, ?_⟩
  · show bytes_of (copy_bytes (copy_bytes (data.getD (fun _ => 0)) 0 ab.buffer ab.buftail
        (Int.tdiv (n * ab.channels * ab.bitspersample) 8)) ab.bufhead dest 0
        (Int.tdiv (n * ab.channels * ab.bitspersample) 8)) 0
        (Int.tdiv (n * ab.channels * ab.bitspersample) 8) = _
    rw [fill_bytes_eq, hh, ht]
    apply bytes_of_shift
    intro i hi0 hi1
    have hc : (0 : Int) ≤ 0 + i ∧ 0 + i < 0 + Int.tdiv (n * ab.channels * ab.bitspersample) 8 := by
      omega
    have hc2 : (0 : Int) ≤ 0 + (0 + i - 0) ∧
        0 + (0 + i - 0) < 0 + Int.tdiv (n * ab.channels * ab.bitspersample) 8 := by
      omega
    simp only [copy_bytes]
    rw [if_pos hc, if_pos hc2]
    have hidx : (0 : Int) + (0 + (0 + i - 0) - 0) = 0 + i := by omega
    rw [hidx]
  · show (if ab.bframes + n - n = 0 then _ else _ : audio_buffer_t).bframes = 0
    rw [if_pos h0]
    exact h0
  · show (if ab.bframes + n - n = 0 then _ else _ : audio_buffer_t).bufhead = 0
    rw [if_pos h0]
  · show (if ab.bframes + n - n = 0 then _ else _ : audio_buffer_t).buftail = 0
    rw [if_pos h0]

/-- Witness for C16: 60 frames (240 bytes) of `pcm` are filled into the empty
buffer of 100 frames and read back. -/
theorem audio_fill_read_roundtrip_witness :
    ∃ ab1, audio_source_buffer_fill_one 2 audio_buf_100 (some pcm) 60 = some ab1 ∧
      (audio_source_buffer_read (fun x => x) ab1 (fun _ => 0) 60).1 = 60 ∧
      bytes_of (audio_source_buffer_read (fun x => x) ab1 (fun _ => 0) 60).2.2 0
          (Int.tdiv (60 * audio_buf_100.channels * audio_buf_100.bitspersample) 8)
        = fill_bytes (some pcm)
          (Int.tdiv (60 * audio_buf_100.channels * audio_buf_100.bitspersample) 8) ∧
      (audio_source_buffer_read (fun x => x) ab1 (fun _ => 0) 60).2.1.bframes = 0 ∧
      (audio_source_buffer_read (fun x => x) ab1 (fun _ => 0) 60).2.1.bufhead = 0 ∧
      (audio_source_buffer_read (fun x => x) ab1 (fun _ => 0) 60).2.1.buftail = 0 :=
  audio_fill_read_roundtrip (fun x => x) 1 audio_buf_100 (some pcm) (fun _ => 0) 60
    rfl rfl rfl (by decide) (by decide)

/-! ## Fan-out to the registered clients -/

/-- The broadcast when no buffer object is registered twice: every registered
buffer gets one `audio_source_buffer_fill_one`, every other buffer is left
alone. -/
theorem audio_source_buffer_fill_spec (fuel : Nat) (data : Option (Int → Nat)) (frames : Int)
    (clients : List (Int × Option Nat)) :
    ∀ heap : Nat → audio_buffer_t, (clients.filterMap (fun c => c.2)).Nodup →
      ∃ heap2, audio_source_buffer_fill (fuel + 2) data frames clients heap = some heap2 ∧
        (∀ p, p ∈ clients.filterMap (fun c => c.2) →
          audio_source_buffer_fill_one (fuel + 2) (heap p) data frames = some (heap2 p)) ∧
        (∀ p, p ∉ clients.filterMap (fun c => c.2) → heap2 p = heap p) := by
  induction clients with
  | nil =>
    intro heap _
    exact ⟨heap, rfl, by simp, fun _ _ => rfl⟩
  | cons c rest ih =>
    intro heap hnd
    obtain ⟨tid, ptr⟩ := c
    cases ptr with
    | none =>
      have hnd2 : (rest.filterMap (fun c => c.2)).Nodup := by simpa using hnd
      obtain ⟨heap2, h1, h2, h3⟩ := ih heap hnd2
      refine ⟨heap2, by simpa [audio_source_buffer_fill] using h1, ?_, ?_⟩
      · intro p hp
        exact h2 p (by simpa using hp)
      · intro p hp
        exact h3 p (by simpa using hp)
    | some q =>
      have hnd2 : q ∉ rest.filterMap (fun c => c.2) ∧ (rest.filterMap (fun c => c.2)).Nodup := by
        simpa using hnd
      obtain ⟨ab, hab⟩ := audio_source_buffer_fill_one_total fuel (heap q) data frames
      obtain ⟨heap2, h1, h2, h3⟩ := ih (Function.update heap q ab) hnd2.2
      refine ⟨heap2, by simp only [audio_source_buffer_fill, hab]; exact h1, ?_, ?_⟩
      · intro p hp
        have hp2 : p = q ∨ p ∈ rest.filterMap (fun c => c.2) := by simpa using hp
        rcases hp2 with hpq | hpr
        · subst hpq
          rw [h3 p hnd2.1, Function.update_same]
          exact hab
        · have hne : p ≠ q := fun e => hnd2.1 (e ▸ hpr)
          have := h2 p hpr
          rwa [Function.update_noteq hne] at this
      · intro p hp
        have hp2 : ¬ (p = q ∨ p ∈ rest.filterMap (fun c => c.2)) := by simpa using hp
        have hne : p ≠ q := fun e => hp2 (Or.inl e)
        rw [h3 p (fun h => hp2 (Or.inr h)), Function.update_noteq hne]

/-- C19: fan-out independence.  For a registry in which every client has its
own buffer object, `audio_source_buffer_fill` changes each registered
non-null buffer exactly as `audio_source_buffer_fill_one` does on that buffer
alone and changes no other buffer; so the resulting state of a buffer depends
only on its own previous state, whatever the states of the other buffers
are. -/
theorem audio_fill_fanout (fuel : Nat) (data : Option (Int → Nat)) (frames : Int)
    (clients : List (Int × Option Nat)) (heap : Nat → audio_buffer_t)
    (hown : (clients.filterMap (fun c => c.2)).Nodup) :
    ∃ heap2, audio_source_buffer_fill (fuel + 2) data frames clients heap = some heap2 ∧
      (∀ tid p, (tid, some p) ∈ clients →
        audio_source_buffer_fill_one (fuel + 2) (heap p) data frames = some (heap2 p)) ∧
      (∀ p, (∀ tid, (tid, some p) ∉ clients) → heap2 p = heap p) ∧
      (∀ (heapB : Nat → audio_buffer_t) (p : Nat), heapB p = heap p →
        ∃ heapB2, audio_source_buffer_fill (fuel + 2) data frames clients heapB = some heapB2 ∧
          heapB2 p = heap2 p) := by
  obtain ⟨heap2, h1, h2, h3⟩ := audio_source_buffer_fill_spec fuel data frames clients heap hown
  have hmem : ∀ p, p ∈ clients.filterMap (fun c => c.2) ↔ ∃ tid, (tid, some p) ∈ clients := by
    intro p
    simp only [List.mem_filterMap, Prod.exists]
    constructor
    · rintro ⟨tid, ptr, hin, hptr⟩
      have : ptr = some p := hptr
      exact ⟨tid, this ▸ hin⟩
    · rintro ⟨tid, hin⟩
      exact ⟨tid, some p, hin, rfl⟩
  refine ⟨heap2, h1, ?_, ?_, ?_⟩
  · intro tid p hin
    exact h2 p ((hmem p).mpr ⟨tid, hin⟩)
  · intro p hp
    exact h3 p (fun h => by
      obtain ⟨tid, hin⟩ := (hmem p).mp h
      exact hp tid hin)
  · intro heapB p hpe
    obtain ⟨heapB2, hb1, hb2, hb3⟩ :=
      audio_source_buffer_fill_spec fuel data frames clients heapB hown
    refine ⟨heapB2, hb1, ?_⟩
    by_cases hp : p ∈ clients.filterMap (fun c => c.2)
    · have e1 := hb2 p hp
      rw [hpe, h2 p hp] at e1
      exact (Option.some.inj e1).symm
    · rw [hb3 p hp, h3 p hp, hpe]

/-- Witness for C19: 60 frames are broadcast to the example registry.  The
buffer of client 1 already holds 60 frames and drops the packet; the buffer
of client 2 takes it; the unregistered buffer at address 2 is untouched. -/
theorem audio_fill_fanout_witness :
    audio_clients_example = [(3, none), (2, some 1), (1, some 0)] ∧
    ∃ heap2, audio_source_buffer_fill 2 (some pcm) 60 audio_clients_example
        audio_heap_example = some heap2 ∧
      heap2 0 = audio_buf_100_60 ∧ heap2 1 = audio_buf_100_60 ∧ heap2 2 = audio_buf_100 :=
  ⟨by decide,
    (audio_fill_fanout 0 (some pcm) 60 audio_clients_example audio_heap_example
      (by decide)).elim fun heap2 h =>
      ⟨heap2, h.1,
        Option.some.inj ((h.2.1 1 0 (by decide)).symm.trans
          (show audio_source_buffer_fill_one 2 (audio_heap_example 0) (some pcm) 60
            = some audio_buf_100_60 from rfl)),
        Option.some.inj ((h.2.1 2 1 (by decide)).symm.trans
          (show audio_source_buffer_fill_one 2 (audio_heap_example 1) (some pcm) 60
            = some audio_buf_100_60 from rfl)),
        h.2.2.1 2 (fun tid hin => by
          have e : audio_clients_example = [(3, none), (2, some 1), (1, some 0)] := by
            decide
          rw [e] at hin
          simp at hin)⟩⟩

/-! ## Creation of the audio buffer -/

/-- Counterexample for C20: after `audio_source_setup(-1, 44100, 16, -2)` the
frame capacity is `-4` and the channel count `-2`, both negative, and
`audio_source_buffer_init` returns a buffer (of 16 bytes) instead of NULL. -/
theorem audio_init_accepts_negative :
    (audio_source_setup (-1) 44100 16 (-2)).gChunksize * 4 < 0 ∧
    (audio_source_setup (-1) 44100 16 (-2)).gChannels < 0 ∧
    (audio_source_buffer_init (audio_source_setup (-1) 44100 16 (-2)) true
      (fun _ => some (fun _ => 0))).isSome = true ∧
    (audio_source_buffer_init (audio_source_setup (-1) 44100 16 (-2)) true
      (fun _ => some (fun _ => 0))).map (fun ab => (ab.frames, ab.channels, ab.bufsize))
      = some (-4, -2, 16) :=
  ⟨by decide, by decide, by decide, by decide⟩

/-- C20 (amended): `audio_source_buffer_init` returns NULL whenever the
configured frame capacity (`4 * gChunksize`), channel count or bits per
sample is zero. -/
theorem audio_init_rejects_zero (g : audio_config) (malloc_ab : Bool)
    (malloc_buffer : Int → Option (Int → Nat))
    (h : g.gChunksize * 4 = 0 ∨ g.gChannels = 0 ∨ g.gBitspersample = 0) :
    audio_source_buffer_init g malloc_ab malloc_buffer = none := by
  simp only [audio_source_buffer_init]
  rw [if_pos h]

/-- Witness for C20 (amended): a chunk size of zero, no channel, and zero bits
per sample are each rejected. -/
theorem audio_init_rejects_zero_witness :
    audio_source_buffer_init (audio_source_setup 0 44100 16 2) true
      (fun _ => some (fun _ => 0)) = none ∧
    audio_source_buffer_init (audio_source_setup 25 44100 16 0) true
      (fun _ => some (fun _ => 0)) = none ∧
    audio_source_buffer_init (audio_source_setup 25 44100 0 2) true
      (fun _ => some (fun _ => 0)) = none :=
  ⟨audio_init_rejects_zero (audio_source_setup 0 44100 16 2) true _
      (Or.inl (by decide)),
    audio_init_rejects_zero (audio_source_setup 25 44100 16 0) true _
      (Or.inr (Or.inl (by decide))),
    audio_init_rejects_zero (audio_source_setup 25 44100 0 2) true _
      (Or.inr (Or.inr (by decide)))⟩

/-! ## The watchdog -/

theorem stall_seconds (d : Int) (h1 : IDLE_DETECTION_THRESHOLD < d)
    (h2 : d ≤ IDLE_MAXIMUM_THRESHOLD) :
    Int.tdiv (int_cast (IDLE_MAXIMUM_THRESHOLD - d)) 1000000 = (3600000 - d) / 1000000 := by
  simp only [IDLE_DETECTION_THRESHOLD, IDLE_MAXIMUM_THRESHOLD] at h1 h2 ⊢
  have hc : int_cast (3600000 - d) = 3600000 - d := by
    unfold int_cast
    omega
  rw [hc, Int.tdiv_eq_ediv (by omega) (by decide)]

theorem watchdog_iteration_waiting (tvdiff : timeval → timeval → Int) (timer tv : timeval)
    (w : watchdog_t) (h : timer.tv_sec = 0) :
    watchdog_iteration tvdiff timer tv w
      = { w with trace := w.trace ++ [watchdog_action.waiting] } := by
  simp [watchdog_iteration, h]

theorem watchdog_iteration_idle (tvdiff : timeval → timeval → Int) (timer tv : timeval)
    (w : watchdog_t) (h : timer.tv_sec ≠ 0) (hd : tvdiff tv timer ≤ 600000) :
    watchdog_iteration tvdiff timer tv w
      = { w with trace := w.trace ++ [watchdog_action.idle] } := by
  have h1 : ¬ (tvdiff tv timer > IDLE_MAXIMUM_THRESHOLD) := by
    simp only [IDLE_MAXIMUM_THRESHOLD]; omega
  have h2 : ¬ (tvdiff tv timer > IDLE_DETECTION_THRESHOLD) := by
    simp only [IDLE_DETECTION_THRESHOLD]; omega
  simp only [watchdog_iteration, h, ne_eq, not_false_eq_true, if_true, h1, h2, if_false]

theorem watchdog_iteration_stall (tvdiff : timeval → timeval → Int) (timer tv : timeval)
    (w : watchdog_t) (h : timer.tv_sec ≠ 0) (hd1 : 600000 < tvdiff tv timer)
    (hd2 : tvdiff tv timer ≤ 3600000) :
    watchdog_iteration tvdiff timer tv w
      = { w with
          trace := w.trace ++
            [watchdog_action.stall ((3600000 - tvdiff tv timer) / 1000000)] } := by
  have h1 : ¬ (tvdiff tv timer > IDLE_MAXIMUM_THRESHOLD) := by
    simp only [IDLE_MAXIMUM_THRESHOLD]; omega
  have h2 : tvdiff tv timer > IDLE_DETECTION_THRESHOLD := by
    simp only [IDLE_DETECTION_THRESHOLD]; omega
  simp only [watchdog_iteration, h, ne_eq, not_false_eq_true, if_true, h1, h2, if_false]
  rw [stall_seconds _ h2 (by simp only [IDLE_MAXIMUM_THRESHOLD]; omega)]

theorem watchdog_iteration_terminate (tvdiff : timeval → timeval → Int) (timer tv : timeval)
    (w : watchdog_t) (h : timer.tv_sec ≠ 0) (hd : 3600000 < tvdiff tv timer) :
    watchdog_iteration tvdiff timer tv w
      = { w with
          running := false
          exited := true
          trace := w.trace ++ [watchdog_action.terminate] } := by
  have h1 : tvdiff tv timer > IDLE_MAXIMUM_THRESHOLD := by
    simp only [IDLE_MAXIMUM_THRESHOLD]; omega
  simp only [watchdog_iteration, h, ne_eq, not_false_eq_true, if_true, h1]

theorem watchdog_thread_waiting (tvdiff : timeval → timeval → Int)
    (ticks : List (timeval × timeval)) :
    ∀ w : watchdog_t, (∀ t ∈ ticks, t.1.tv_sec = 0) → w.exited = false →
      watchdog_thread tvdiff ticks w
        = { w with trace := w.trace ++ List.replicate ticks.length watchdog_action.waiting } := by
  induction ticks with
  | nil => intro w _ _; simp [watchdog_thread]
  | cons t rest ih =>
    intro w hz hw
    have ht := hz t (List.mem_cons_self t rest)
    have hit := watchdog_iteration_waiting tvdiff t.1 t.2 w ht
    have hex : (watchdog_iteration tvdiff t.1 t.2 w).exited = false := by rw [hit]; exact hw
    simp only [watchdog_thread, hex, Bool.false_eq_true, if_false]
    rw [ih _ (fun x hx => hz x (List.mem_cons_of_mem _ hx)) hex, hit]
    simp [List.replicate_succ]

/-- C21: the decision taken on a polling tick, with `d` the microseconds
elapsed since the recorded timestamp.  While no timestamp has been recorded
(`watchdogTimer.tv_sec` is still 0) the tick neither emits nor terminates, and
so does any number of such ticks; with a timestamp the tick does nothing when
`d <= 600000`, pushes the stall message (counting down
`(3600000 - d) / 1000000` seconds) when `600000 < d <= 3600000`, and clears
`running` and leaves the loop when `d > 3600000`. -/
theorem watchdog_tick_decision (tvdiff : timeval → timeval → Int) (timer tv : timeval)
    (w : watchdog_t) :
    (timer.tv_sec = 0 →
      watchdog_iteration tvdiff timer tv w
        = { w with trace := w.trace ++ [watchdog_action.waiting] }) ∧
    (∀ ticks : List (timeval × timeval), (∀ t ∈ ticks, t.1.tv_sec = 0) → w.exited = false →
      watchdog_thread tvdiff ticks w
        = { w with
            trace := w.trace ++ List.replicate ticks.length watchdog_action.waiting }) ∧
    (timer.tv_sec ≠ 0 → tvdiff tv timer ≤ 600000 →
      watchdog_iteration tvdiff timer tv w
        = { w with trace := w.trace ++ [watchdog_action.idle] }) ∧
    (timer.tv_sec ≠ 0 → 600000 < tvdiff tv timer → tvdiff tv timer ≤ 3600000 →
      watchdog_iteration tvdiff timer tv w
        = { w with
            trace := w.trace ++
              [watchdog_action.stall ((3600000 - tvdiff tv timer) / 1000000)] }) ∧
    (timer.tv_sec ≠ 0 → 3600000 < tvdiff tv timer →
      watchdog_iteration tvdiff timer tv w
        = { w with
            running := false
            exited := true
            trace := w.trace ++ [watchdog_action.terminate] }) :=
  ⟨watchdog_iteration_waiting tvdiff timer tv w,
    fun ticks => watchdog_thread_waiting tvdiff ticks w,
    watchdog_iteration_idle tvdiff timer tv w,
    watchdog_iteration_stall tvdiff timer tv w,
    watchdog_iteration_terminate tvdiff timer tv w⟩

/-- Witness for C21: ten ticks without a timestamp only wait; with the
timestamp at second 1000, a tick at 1000.5 s does nothing, a tick at 1001.7 s
pushes the message with countdown 1, and a tick at 1003.7 s terminates. -/
theorem watchdog_tick_decision_witness :
    watchdog_thread tvdiff_us (List.replicate 10 (⟨0, 0⟩, ⟨1000, 0⟩)) watchdog_start
      = { watchdog_start with trace := List.replicate 10 watchdog_action.waiting } ∧
    watchdog_iteration tvdiff_us timer_1000 ⟨1000, 500000⟩ watchdog_start
      = { watchdog_start with trace := [watchdog_action.idle] } ∧
    watchdog_iteration tvdiff_us timer_1000 ⟨1001, 700000⟩ watchdog_start
      = { watchdog_start with trace := [watchdog_action.stall 1] } ∧
    watchdog_iteration tvdiff_us timer_1000 ⟨1003, 700000⟩ watchdog_start
      = { running := false, exited := true, trace := [watchdog_action.terminate] } :=
  ⟨(watchdog_tick_decision tvdiff_us ⟨0, 0⟩ ⟨1000, 0⟩ watchdog_start).2.1
      (List.replicate 10 (⟨0, 0⟩, ⟨1000, 0⟩)) (by decide) rfl,
    (watchdog_tick_decision tvdiff_us timer_1000 ⟨1000, 500000⟩ watchdog_start).2.2.1
      (by decide) (by decide),
    (watchdog_tick_decision tvdiff_us timer_1000 ⟨1001, 700000⟩ watchdog_start).2.2.2.1
      (by decide) (by decide) (by decide),
    (watchdog_tick_decision tvdiff_us timer_1000 ⟨1003, 700000⟩ watchdog_start).2.2.2.2
      (by decide) (by decide)⟩

theorem watchdog_thread_cons (tvdiff : timeval → timeval → Int) (t : timeval × timeval)
    (rest : List (timeval × timeval)) (w : watchdog_t) :
    watchdog_thread tvdiff (t :: rest) w =
      if (watchdog_iteration tvdiff t.1 t.2 w).exited then watchdog_iteration tvdiff t.1 t.2 w
      else watchdog_thread tvdiff rest (watchdog_iteration tvdiff t.1 t.2 w) := rfl

/-- Once the loop has been left, later ticks are not looked at. -/
theorem watchdog_thread_append_exited (tvdiff : timeval → timeval → Int)
    (l1 l2 : List (timeval × timeval)) :
    ∀ w : watchdog_t, w.exited = false → (watchdog_thread tvdiff l1 w).exited = true →
      watchdog_thread tvdiff (l1 ++ l2) w = watchdog_thread tvdiff l1 w := by
  induction l1 with
  | nil =>
    intro w hw h
    simp only [watchdog_thread] at h
    rw [hw] at h
    cases h
  | cons t rest ih =>
    intro w _ h
    rw [List.cons_append, watchdog_thread_cons, watchdog_thread_cons]
    rw [watchdog_thread_cons] at h
    by_cases hex : (watchdog_iteration tvdiff t.1 t.2 w).exited = true
    · rw [if_pos hex, if_pos hex]
    · rw [if_neg hex] at h
      rw [if_neg hex, if_neg hex]
      exact ih _ (by simpa using hex) h

theorem tvdiff_us_later (t0 timer : timeval) (k : Int) :
    tvdiff_us { tv_sec := t0.tv_sec + k, tv_usec := t0.tv_usec } timer
      = tvdiff_us t0 timer + k * 1000000 := by
  simp only [tvdiff_us]
  omega

theorem poll_every_second_split (timer t0 : timeval) (m : Nat) :
    poll_every_second timer t0 (5 + m) =
      [(timer, { tv_sec := t0.tv_sec + (0 : Nat), tv_usec := t0.tv_usec }),
        (timer, { tv_sec := t0.tv_sec + (1 : Nat), tv_usec := t0.tv_usec }),
        (timer, { tv_sec := t0.tv_sec + (2 : Nat), tv_usec := t0.tv_usec }),
        (timer, { tv_sec := t0.tv_sec + (3 : Nat), tv_usec := t0.tv_usec }),
        (timer, { tv_sec := t0.tv_sec + (4 : Nat), tv_usec := t0.tv_usec })]
      ++ (List.range m).map (fun (k : Nat) =>
          (timer, { tv_sec := t0.tv_sec + ((5 + k : Nat) : Int), tv_usec := t0.tv_usec })) := by
  unfold poll_every_second
  rw [List.range_add, List.map_append, List.map_map]
  rfl

/-- Counterexample for C22: the timestamp is recorded at second 1000 and never
updated; the loop polls at 1000.5 s, 1001.5 s, ...  The stall message is
pushed on three ticks (idle for 1.5 s, 2.5 s and 3.5 s, with countdown 2, 1,
0), not once; the tick at 1004.5 s terminates. -/
theorem watchdog_stall_message_repeats :
    (watchdog_thread tvdiff_us (poll_every_second timer_1000 ⟨1000, 500000⟩ 8)
      watchdog_start).trace
      = [watchdog_action.idle, watchdog_action.stall 2, watchdog_action.stall 1,
          watchdog_action.stall 0, watchdog_action.terminate] ∧
    count_stall (watchdog_thread tvdiff_us (poll_every_second timer_1000 ⟨1000, 500000⟩ 8)
      watchdog_start).trace = 3 ∧
    count_stall (watchdog_thread tvdiff_us (poll_every_second timer_1000 ⟨1000, 500000⟩ 8)
      watchdog_start).trace ≠ 1 :=
  ⟨by decide, by decide, by decide⟩

/-- The loop over the first five ticks of an idle period that starts at most
one second before the first tick. -/
theorem watchdog_five_ticks (timer t0 : timeval) (rest : List (timeval × timeval))
    (hrec : timer.tv_sec ≠ 0) (h0 : 0 ≤ tvdiff_us t0 timer)
    (h1 : tvdiff_us t0 timer ≤ 1000000) :
    (tvdiff_us t0 timer ≤ 600000 →
      watchdog_thread tvdiff_us
        ([(timer, { tv_sec := t0.tv_sec + (0 : Nat), tv_usec := t0.tv_usec }),
          (timer, { tv_sec := t0.tv_sec + (1 : Nat), tv_usec := t0.tv_usec }),
          (timer, { tv_sec := t0.tv_sec + (2 : Nat), tv_usec := t0.tv_usec }),
          (timer, { tv_sec := t0.tv_sec + (3 : Nat), tv_usec := t0.tv_usec }),
          (timer, { tv_sec := t0.tv_sec + (4 : Nat), tv_usec := t0.tv_usec })] ++ rest)
        watchdog_start
      = { running := false, exited := true,
          trace := [watchdog_action.idle, watchdog_action.stall 2, watchdog_action.stall 1,
            watchdog_action.stall 0, watchdog_action.terminate] }) ∧
    (600000 < tvdiff_us t0 timer →
      watchdog_thread tvdiff_us
        ([(timer, { tv_sec := t0.tv_sec + (0 : Nat), tv_usec := t0.tv_usec }),
          (timer, { tv_sec := t0.tv_sec + (1 : Nat), tv_usec := t0.tv_usec }),
          (timer, { tv_sec := t0.tv_sec + (2 : Nat), tv_usec := t0.tv_usec }),
          (timer, { tv_sec := t0.tv_sec + (3 : Nat), tv_usec := t0.tv_usec }),
          (timer, { tv_sec := t0.tv_sec + (4 : Nat), tv_usec := t0.tv_usec })] ++ rest)
        watchdog_start
      = { running := false, exited := true,
          trace := [watchdog_action.stall 2, watchdog_action.stall 1,
            watchdog_action.stall 0, watchdog_action.terminate] }) := by
  have d0 := tvdiff_us_later t0 timer ((0 : Nat) : Int)
  have d1 := tvdiff_us_later t0 timer ((1 : Nat) : Int)
  have d2 := tvdiff_us_later t0 timer ((2 : Nat) : Int)
  have d3 := tvdiff_us_later t0 timer ((3 : Nat) : Int)
  have d4 := tvdiff_us_later t0 timer ((4 : Nat) : Int)
  push_cast at d0 d1 d2 d3 d4
  constructor
  · intro hA
    have e0 : ∀ w, watchdog_iteration tvdiff_us timer
        { tv_sec := t0.tv_sec + (0 : Nat), tv_usec := t0.tv_usec } w
        = { w with trace := w.trace ++ [watchdog_action.idle] } :=
      fun w => watchdog_iteration_idle tvdiff_us timer _ w hrec (by push_cast; omega)
    have e1 : ∀ w, watchdog_iteration tvdiff_us timer
        { tv_sec := t0.tv_sec + (1 : Nat), tv_usec := t0.tv_usec } w
        = { w with trace := w.trace ++ [watchdog_action.stall 2] } := by
      intro w
      rw [watchdog_iteration_stall tvdiff_us timer _ w hrec (by push_cast; omega)
        (by push_cast; omega)]
      have : (3600000 - tvdiff_us
          { tv_sec := t0.tv_sec + (1 : Nat), tv_usec := t0.tv_usec } timer) / 1000000 = 2 := by
        push_cast; omega
      rw [this]
    have e2 : ∀ w, watchdog_iteration tvdiff_us timer
        { tv_sec := t0.tv_sec + (2 : Nat), tv_usec := t0.tv_usec } w
        = { w with trace := w.trace ++ [watchdog_action.stall 1] } := by
      intro w
      rw [watchdog_iteration_stall tvdiff_us timer _ w hrec (by push_cast; omega)
        (by push_cast; omega)]
      have : (3600000 - tvdiff_us
          { tv_sec := t0.tv_sec + (2 : Nat), tv_usec := t0.tv_usec } timer) / 1000000 = 1 := by
        push_cast; omega
      rw [this]
    have e3 : ∀ w, watchdog_iteration tvdiff_us timer
        { tv_sec := t0.tv_sec + (3 : Nat), tv_usec := t0.tv_usec } w
        = { w with trace := w.trace ++ [watchdog_action.stall 0] } := by
      intro w
      rw [watchdog_iteration_stall tvdiff_us timer _ w hrec (by push_cast; omega)
        (by push_cast; omega)]
      have : (3600000 - tvdiff_us
          { tv_sec := t0.tv_sec + (3 : Nat), tv_usec := t0.tv_usec } timer) / 1000000 = 0 := by
        push_cast; omega
      rw [this]
    have e4 : ∀ w, watchdog_iteration tvdiff_us timer
        { tv_sec := t0.tv_sec + (4 : Nat), tv_usec := t0.tv_usec } w
        = { w with
            running := false
            exited := true
            trace := w.trace ++ [watchdog_action.terminate] } :=
      fun w => watchdog_iteration_terminate tvdiff_us timer _ w hrec (by push_cast; omega)
    simp only [List.cons_append, List.nil_append, watchdog_thread_cons, e0, e1, e2, e3, e4,
      watchdog_start, Bool.false_eq_true, if_false, if_true]
  · intro hB
    have e0 : ∀ w, watchdog_iteration tvdiff_us timer
        { tv_sec := t0.tv_sec + (0 : Nat), tv_usec := t0.tv_usec } w
        = { w with trace := w.trace ++ [watchdog_action.stall 2] } := by
      intro w
      rw [watchdog_iteration_stall tvdiff_us timer _ w hrec (by push_cast; omega)
        (by push_cast; omega)]
      have : (3600000 - tvdiff_us
          { tv_sec := t0.tv_sec + (0 : Nat), tv_usec := t0.tv_usec } timer) / 1000000 = 2 := by
        push_cast; omega
      rw [this]
    have e1 : ∀ w, watchdog_iteration tvdiff_us timer
        { tv_sec := t0.tv_sec + (1 : Nat), tv_usec := t0.tv_usec } w
        = { w with trace := w.trace ++ [watchdog_action.stall 1] } := by
      intro w
      rw [watchdog_iteration_stall tvdiff_us timer _ w hrec (by push_cast; omega)
        (by push_cast; omega)]
      have : (3600000 - tvdiff_us
          { tv_sec := t0.tv_sec + (1 : Nat), tv_usec := t0.tv_usec } timer) / 1000000 = 1 := by
        push_cast; omega
      rw [this]
    have e2 : ∀ w, watchdog_iteration tvdiff_us timer
        { tv_sec := t0.tv_sec + (2 : Nat), tv_usec := t0.tv_usec } w
        = { w with trace := w.trace ++ [watchdog_action.stall 0] } := by
      intro w
      rw [watchdog_iteration_stall tvdiff_us timer _ w hrec (by push_cast; omega)
        (by push_cast; omega)]
      have : (3600000 - tvdiff_us
          { tv_sec := t0.tv_sec + (2 : Nat), tv_usec := t0.tv_usec } timer) / 1000000 = 0 := by
        push_cast; omega
      rw [this]
    have e3 : ∀ w, watchdog_iteration tvdiff_us timer
        { tv_sec := t0.tv_sec + (3 : Nat), tv_usec := t0.tv_usec } w
        = { w with
            running := false
            exited := true
            trace := w.trace ++ [watchdog_action.terminate] } :=
      fun w => watchdog_iteration_terminate tvdiff_us timer _ w hrec (by push_cast; omega)
    simp only [List.cons_append, List.nil_append, watchdog_thread_cons, e0, e1, e2, e3,
      watchdog_start, Bool.false_eq_true, if_false, if_true]

/-- C22 (amended): one continuous idle period under a loop that polls every
second.  The timestamp is recorded once (`tv_sec` not 0) and never updated,
the first tick comes at most one second after it, and at least five ticks are
observed.  Then the stall message is pushed on every tick whose idle time is
above 600000 and not above 3600000 microseconds, which makes three messages
with the countdown 2, 1, 0; the next tick terminates, and termination happens
exactly once: `running` is cleared, the loop is left and no later tick acts. -/
theorem watchdog_idle_period (timer t0 : timeval) (n : Nat)
    (hrec : timer.tv_sec ≠ 0) (h0 : 0 ≤ tvdiff_us t0 timer)
    (h1 : tvdiff_us t0 timer ≤ 1000000) (hn : 5 ≤ n) :
    (watchdog_thread tvdiff_us (poll_every_second timer t0 n) watchdog_start).exited = true ∧
    (watchdog_thread tvdiff_us (poll_every_second timer t0 n) watchdog_start).running = false ∧
    count_stall (watchdog_thread tvdiff_us (poll_every_second timer t0 n) watchdog_start).trace
      = 3 ∧
    count_terminate
      (watchdog_thread tvdiff_us (poll_every_second timer t0 n) watchdog_start).trace = 1 ∧
    ((watchdog_thread tvdiff_us (poll_every_second timer t0 n) watchdog_start).trace
        = [watchdog_action.idle, watchdog_action.stall 2, watchdog_action.stall 1,
            watchdog_action.stall 0, watchdog_action.terminate] ∨
      (watchdog_thread tvdiff_us (poll_every_second timer t0 n) watchdog_start).trace
        = [watchdog_action.stall 2, watchdog_action.stall 1, watchdog_action.stall 0,
            watchdog_action.terminate]) := by
  obtain ⟨m, hm⟩ : ∃ m, n = 5 + m := ⟨n - 5, by omega⟩
  subst hm
  rw [poll_every_second_split]
  obtain ⟨hA, hB⟩ := watchdog_five_ticks timer t0
    ((List.range m).map (fun (k : Nat) =>
      (timer, { tv_sec := t0.tv_sec + ((5 + k : Nat) : Int), tv_usec := t0.tv_usec })))
    hrec h0 h1
  by_cases hd : tvdiff_us t0 timer ≤ 600000
  · rw [hA hd]
    exact ⟨rfl, rfl, rfl, rfl, Or.inl rfl⟩
  · rw [hB (by omega)]
    exact ⟨rfl, rfl, rfl, rfl, Or.inr rfl⟩

/-- Witness for C22 (amended): the timestamp is recorded at second 1000, the
loop polls at 1000.7 s, 1001.7 s, ... (eight ticks). -/
theorem watchdog_idle_period_witness :
    (watchdog_thread tvdiff_us (poll_every_second timer_1000 ⟨1000, 700000⟩ 8)
      watchdog_start).exited = true ∧
    (watchdog_thread tvdiff_us (poll_every_second timer_1000 ⟨1000, 700000⟩ 8)
      watchdog_start).running = false ∧
    count_stall (watchdog_thread tvdiff_us (poll_every_second timer_1000 ⟨1000, 700000⟩ 8)
      watchdog_start).trace = 3 ∧
    count_terminate (watchdog_thread tvdiff_us
      (poll_every_second timer_1000 ⟨1000, 700000⟩ 8) watchdog_start).trace = 1 ∧
    ((watchdog_thread tvdiff_us (poll_every_second timer_1000 ⟨1000, 700000⟩ 8)
        watchdog_start).trace
        = [watchdog_action.idle, watchdog_action.stall 2, watchdog_action.stall 1,
            watchdog_action.stall 0, watchdog_action.terminate] ∨
      (watchdog_thread tvdiff_us (poll_every_second timer_1000 ⟨1000, 700000⟩ 8)
        watchdog_start).trace
        = [watchdog_action.stall 2, watchdog_action.stall 1, watchdog_action.stall 0,
            watchdog_action.terminate]) :=
  watchdog_idle_period timer_1000 ⟨1000, 700000⟩ 8 (by decide) (by decide) (by decide)
    (by decide)

/-! ## The audio buffer in `int` arithmetic -/

/-- While the two products fit in an `int`, `framesize_int` is the exact byte
size `frames * channels * bitspersample / 8`. -/
theorem framesize_int_exact (frames channels bitspersample : Int)
    (h1 : -2147483648 ≤ frames * channels ∧ frames * channels < 2147483648)
    (h2 : -2147483648 ≤ frames * channels * bitspersample ∧
      frames * channels * bitspersample < 2147483648) :
    framesize_int frames channels bitspersample =
      Int.tdiv (frames * channels * bitspersample) 8 := by
  have hc : ∀ x : Int, -2147483648 ≤ x → x < 2147483648 → int_cast x = x := by
    intro x hx1 hx2
    unfold int_cast
    omega
  unfold framesize_int int_mul
  rw [hc _ h1.1 h1.2, hc _ h2.1 h2.2]

/-- The overflow branch in `int` arithmetic: when the computed `framesize`
exceeds the computed free space, the fill returns at once and the buffer is
unchanged. -/
theorem audio_fill_one_int_drops (fuel : Nat) (ab : audio_buffer_t)
    (data : Option (Int → Nat)) (frames : Int) (hf : 0 < frames)
    (h : framesize_int frames ab.channels ab.bitspersample >
      int_add ab.bufhead (int_sub ab.bufsize ab.buftail)) :
    audio_source_buffer_fill_one_int (fuel + 1) ab data frames = some ab := by
  unfold audio_source_buffer_fill_one_int
  rw [if_neg (by omega)]
  unfold audio_fill_retry_int
  exact if_pos h

/-- On the buffer of 100 frames, a fill of 60 frames followed by a fill of 60
more frames: the second one is dropped, the buffer holds 60 frames in 240
bytes. -/
theorem audio_fill_60_60_int :
    ∃ ab, audio_run_int [AudioOp.fill (some pcm) 60, AudioOp.fill (some pcm) 60]
        audio_buf_100 = some ab ∧
      audio_offsets ab = (0, 240, 60) ∧ ab.bframes ≤ ab.frames :=
  ⟨_, rfl, by decide, by decide⟩

/-- C14: a fill whose byte size exceeds the free space is not always dropped.
`audio_source_buffer_init` after `audio_source_setup(25, 44100, 16, 2)` gives
the empty buffer of 100 frames (400 bytes).  A fill of `2^27 = 134217728`
frames has a byte size of `2^29`, above the 400 free bytes, yet the `int`
product `134217728 * 2 * 16 = 2^32` wraps to 0: the computed `framesize` is 0,
the overflow test does not fire and the fill is taken.  Afterwards the buffer
counts 134217728 frames, more than its capacity of 100, and `buftail` has not
moved. -/
theorem audio_fill_wrapped_not_dropped :
    audio_source_buffer_init_int audio_cfg_100 true malloc_zeroed = some audio_buf_100 ∧
    Int.tdiv (134217728 * audio_buf_100.channels * audio_buf_100.bitspersample) 8 >
      audio_buf_100.bufhead + (audio_buf_100.bufsize - audio_buf_100.buftail) ∧
    framesize_int 134217728 audio_buf_100.channels audio_buf_100.bitspersample = 0 ∧
    (∃ ab, audio_source_buffer_fill_one_int 2 audio_buf_100 (some pcm) 134217728 = some ab ∧
      audio_offsets ab = (0, 0, 134217728) ∧ ab.frames < ab.bframes) :=
  ⟨rfl, by decide, by decide, _, rfl, by decide, by decide⟩

/-- C17: `bufhead <= buftail` is not an invariant.  `audio_source_buffer_init`
after `audio_source_setup(2, 44100, 12, 1)` gives the empty buffer of 8 frames
of 12-bit mono audio (12 bytes).  Each of five fills of one frame stores
`1 * 1 * 12 / 8 = 1` byte, so `buftail = 5`; the read of four frames then
copies `4 * 1 * 12 / 8 = 6` bytes and leaves `bufhead = 6 > buftail = 5` with
one frame buffered. -/
theorem audio_head_passes_tail_int :
    audio_source_buffer_init_int (audio_source_setup 2 44100 12 1) true malloc_zeroed =
      some audio_buf_12bit ∧
    (∃ ab, audio_run_int audio_ops_12bit audio_buf_12bit = some ab ∧
      audio_offsets ab = (6, 5, 1) ∧ ab.buftail < ab.bufhead) :=
  ⟨rfl, _, rfl, by decide, by decide⟩

/-- C18: a read can deliver bytes that no fill has written.  On the empty
buffer of 100 frames of 16-bit stereo, whose 400 bytes are zero, the fill of
`2^27` frames of `pcm` is taken with a computed `framesize` of 0 and stores
nothing; the read of 100 frames that follows returns 100 and copies 400 bytes
of the array into the destination (whose bytes were 7 before).  The first of
them are `0, 0, 0, 0`, whereas the data of the fill begins `0, 1, 2, 3`. -/
theorem audio_read_delivers_unwritten :
    (∃ ab r, audio_source_buffer_fill_one_int 2 audio_buf_100 (some pcm) 134217728 = some ab ∧
      ab.buftail = 0 ∧ ab.bframes = 134217728 ∧
      audio_source_buffer_read_int (fun x => x) ab (fun _ => 7) 100 = some r ∧
      r.1 = 100 ∧ bytes_of r.2.2 0 4 = [0, 0, 0, 0] ∧ bytes_of r.2.2 396 6 = [0, 0, 0, 0, 7, 7]) ∧
    bytes_of pcm 0 4 = [0, 1, 2, 3] :=
  ⟨⟨_, _, rfl, by decide, by decide, rfl, by decide, by decide, by decide⟩, by decide⟩

/-- C23: the bookkeeping relation is not an invariant, although
`channels * bitspersample = 32` is a multiple of 8.  On the empty buffer of
100 frames of 16-bit stereo (400 bytes), the fill of `2^27` frames is taken
with a computed `framesize` of 0 and the read of 100 frames that follows
copies 400 bytes from offset 0 on, beyond `buftail = 0`.  Afterwards
`bufhead = 400 > buftail = 0`, and `buftail - bufhead = -400` whereas
`bframes * (channels * bitspersample / 8) = 134217628 * 4`. -/
theorem audio_bookkeeping_breaks :
    (audio_buf_100.channels * audio_buf_100.bitspersample) % 8 = 0 ∧
    (∃ ab, audio_run_int audio_ops_wrap audio_buf_100 = some ab ∧
      audio_offsets ab = (400, 0, 134217628) ∧ ab.buftail < ab.bufhead ∧
      ab.buftail - ab.bufhead ≠ ab.bframes * (ab.channels * ab.bitspersample / 8)) :=
  ⟨by decide, _, rfl, by decide, by decide, by decide⟩

end GamingAnywhere
